import Mathlib

/-!
# A verification development for the git-media HTTP client (`client/client.go`)

The Go functions of `client/client.go` are embedded as Lean functions.

* A Go string (URLs, paths, header values, response bodies, credential
  values) is a `GoString`, a list of bytes; `text "..."` is the Go string
  with the UTF-8 bytes of a literal, `ch` the byte of an ASCII character.
* The outside world (file system, credential helper, HTTP transport, JSON
  decoder) is a record of oracles, `World`.  Every call that reaches the
  outside world is logged as an `Event`; a function returns its Go result
  together with the list of events it caused, in program order.
* The library functions whose behaviour the statements depend on are embedded
  too: `filepath.Base`, `filepath.Clean` and `filepath.Join` (Unix),
  `base64.EncodeToString`, `mime.ParseMediaType` (with the UTF-8 decoding
  and the white-space trimming it relies on) and `io.ReadAtLeast`.  Of
  `strings.ToLower` the ASCII path is embedded; on a string with a non-ASCII
  byte it is `strings.Map(unicode.ToLower, s)`, whose Unicode case table is a
  parameter (`World.mapToLower`).
* A Go pair `(value, error)` is a pair of options; a nil pointer is `none`.
-/

set_option linter.dupNamespace false
set_option maxRecDepth 8192

namespace GitMedia

/-- One octet. -/
abbrev Byte := Fin 256

/-- A Go string: a sequence of bytes. -/
abbrev GoString := List Byte

/-- The byte with the value `n mod 256`. -/
def byteOf (n : Nat) : Byte := ⟨n % 256, Nat.mod_lt n (by decide)⟩

/-- The byte of an ASCII character. -/
def ch (c : Char) : Byte := byteOf c.toNat

/-- The UTF-8 encoding of a character. -/
def utf8EncodeChar (c : Char) : List Byte :=
  let n := c.toNat
  if n < 0x80 then [byteOf n]
  else if n < 0x800 then [byteOf (0xC0 + n / 64), byteOf (0x80 + n % 64)]
  else if n < 0x10000 then
    [byteOf (0xE0 + n / 4096), byteOf (0x80 + n / 64 % 64), byteOf (0x80 + n % 64)]
  else
    [byteOf (0xF0 + n / 262144), byteOf (0x80 + n / 4096 % 64), byteOf (0x80 + n / 64 % 64),
      byteOf (0x80 + n % 64)]

/-- The Go string of a literal: its UTF-8 bytes. -/
def text (s : String) : GoString := s.toList.flatMap utf8EncodeChar

/-- Errors produced by the Go libraries and the operating system (transport
failures, JSON syntax errors, file-system errors, `io` errors). -/
structure LibError where
  text : String
  deriving DecidableEq, Repr

/-- The `Error` struct of `client.go`: the JSON error document of the server. -/
structure Error where
  Message : String
  RequestId : String
  deriving DecidableEq, Repr

/-- The method `func (e *Error) Error() string`. -/
def Error.Error (e : Error) : String := e.Message

/-- Values of Go's `error` interface that occur in `client.go`. -/
inductive GoError where
  /-- The value of `errors.New(text)`. -/
  | new (text : String)
  /-- A `*Error` decoded from a response body. -/
  | api (e : Error)
  /-- an error handed over by a library or the operating system -/
  | lib (e : LibError)
  /-- a run-time panic (nil dereference) -/
  | nilDeref
  deriving DecidableEq, Repr

/-- The text `err.Error()`. -/
def GoError.Error : GoError → String
  | .new t => t
  | .api e => e.Error
  | .lib e => e.text
  | .nilDeref => "invalid memory address or nil pointer dereference"

/-- Modelled from the spec: the type `Creds`, declared outside `client.go`; a
mapping with (at least) the keys `username` and `password`, which `client.go`
reads as `creds["username"]` and `creds["password"]`.  An association list. -/
abbrev Creds := List (String × GoString)

/-- The map read `creds[key]`: the zero value `""` when the key is absent. -/
def Creds.get (c : Creds) (key : String) : GoString :=
  match c.lookup key with
  | some v => v
  | none => []

/-- An `http.Header`, keys in canonical form. -/
abbrev Header := List (String × GoString)

/-- The method `Header.Get`: the value stored under the key, `""` when there is none. -/
def Header.Get (h : Header) (key : String) : GoString :=
  match h.lookup key with
  | some v => v
  | none => []

/-- The method `Header.Set`: replaces whatever is stored under the key. -/
def Header.Set (h : Header) (key : String) (value : GoString) : Header :=
  (key, value) :: h.filter (fun kv => kv.1 != key)

/-- The fields of `url.URL` the client touches. -/
structure URL where
  Scheme : GoString
  Host : GoString
  Path : GoString
  RawQuery : GoString
  deriving DecidableEq, Repr

/-- The body attached to an outgoing request. -/
inductive RequestBody where
  | none
  /-- the opened local file, read through the progress bar's proxy reader -/
  | file (path : GoString)
  deriving DecidableEq, Repr

/-- The fields of `http.Request` the client touches. -/
structure Request where
  Method : String
  URL : GoString
  Header : Header
  Body : RequestBody
  ContentLength : Int
  deriving DecidableEq, Repr

/-- An `http.Response`; `Body` is what is still unread of the response body. -/
structure Response where
  StatusCode : Int
  Header : Header
  Body : GoString
  deriving DecidableEq, Repr

/-- Outcome of `http.DefaultClient.Do`: a response and a nil error, or a
non-nil error (with which the `http` package may still hand over a response). -/
inductive DoResult where
  | ok (res : Response)
  | fail (res : Option Response) (err : LibError)
  deriving DecidableEq, Repr

/-- Calls that leave the process. -/
inductive Event where
  /-- The call `os.Stat(path)`. -/
  | stat (path : GoString)
  /-- The call `os.Open(path)`. -/
  | osOpen (path : GoString)
  /-- The call `credentials(u)`: the credential helper is asked for credentials. -/
  | credentials (u : URL)
  /-- The call `execCreds(creds, subCommand)` of the package, outside `client.go`:
  the outcome is reported to the credential helper. -/
  | execCreds (creds : Creds) (subCommand : String)
  /-- The call `http.DefaultClient.Do(req)`. -/
  | httpDo (req : Request)
  /-- the progress bar is started on a transfer of `total` bytes -/
  | progress (total : Int)
  /-- A line written by `fmt.Printf`. -/
  | print (text : GoString)
  deriving DecidableEq, Repr

/-- The collaborators of the client. -/
structure World where
  /-- The result of `url.Parse(gitmedia.Config.Endpoint())`; the configuration
  is outside `client.go`. -/
  endpoint : URL
  /-- The method `(*url.URL).String`. -/
  urlString : URL → GoString
  /-- The call `os.Stat`: the size of the file, or the error. -/
  stat : GoString → Except LibError Int
  /-- The call `os.Open`: nil, or the error. -/
  osOpen : GoString → Option LibError
  /-- the error of `http.NewRequest`, if any -/
  newRequestError : String → GoString → Option LibError
  /-- The function `credentials(u)` of the package, outside `client.go`: it asks
  the credential helper for the credentials of the URL. -/
  credentials : URL → Except LibError Creds
  /-- The call `http.DefaultClient.Do`. -/
  httpDo : Request → DoResult
  /-- The call `json.NewDecoder(body).Decode(&Error{})`: the decoded document or the
  decoder's error, and what the decoder left unread of the body -/
  jsonDecode : GoString → Except LibError Error × GoString
  /-- The call `strings.Map(unicode.ToLower, s)`, which `strings.ToLower` makes on
  a string with a non-ASCII byte: the Unicode case table of the Go library. -/
  mapToLower : GoString → GoString

/-- A Go result pair `(value, error)` together with the events caused. -/
abbrev Outcome (α : Type) := (Option α × Option GoError) × List Event

/-- The function `doRequest`. -/
def doRequest (w : World) (req : Request) (creds : Creds) : Outcome Response :=
  match w.httpDo req with
  | .ok res =>
    if res.StatusCode > 299 then
      match w.jsonDecode res.Body with
      | (.error e, rest) =>
        ((some { res with Body := rest }, some (.lib e)),
          [.httpDo req, .execCreds creds "reject"])
      | (.ok apierr, rest) =>
        ((some { res with Body := rest }, some (.api apierr)),
          [.httpDo req, .execCreds creds "reject"])
    else
      ((some res, none), [.httpDo req])
  | .fail res err =>
    ((res, some (.lib err)), [.httpDo req, .execCreds creds "approve"])

/-! ## `path/filepath` (Unix: the separator is `/`, there are no volume names) -/

namespace filepath

/-- The constant `filepath.Separator`. -/
def Separator : Byte := (ch '/')

/-- Removal of the trailing separators of a path (the first loop of `Base`). -/
def stripTrailing : GoString → GoString
  | [] => []
  | c :: rest =>
    match stripTrailing rest with
    | [] => if c = Separator then [] else [c]
    | r => c :: r

/-- What follows the last separator of a path, the whole path when it has
none (the second loop of `Base`). -/
def lastElement : GoString → GoString
  | [] => []
  | c :: rest =>
    if Separator ∈ rest then lastElement rest
    else if c = Separator then rest
    else c :: rest

/-- The function `filepath.Base`. -/
def Base (path : GoString) : GoString :=
  if path = [] then [(ch '.')]
  else
    let path := lastElement (stripTrailing path)
    if path = [] then [Separator] else path

/-- The backtracking of `Clean` on a `..` element, on the reversed buffer: the
buffer loses its last byte, and goes on losing bytes until the byte just
dropped is a separator or only `dotdot` bytes are left. -/
def backtrack (dotdot : Nat) : GoString → GoString
  | [] => []
  | c :: out =>
    if out.length > dotdot ∧ c ≠ Separator then backtrack dotdot out else out

/-- The main loop of `Clean`.  `path` is what is still to be read, `out` the
bytes written so far, `dotdot` the length of the part of `out` that `..` must
not remove.  Every round reads at least one byte, so `path.length` rounds of
fuel are enough. -/
def cleanLoop (rooted : Bool) : Nat → GoString → GoString → Nat → GoString
  | 0, _, out, _ => out
  | _ + 1, [], out, _ => out
  | fuel + 1, c :: rest, out, dotdot =>
    if c = Separator then
      cleanLoop rooted fuel rest out dotdot
    else if c = (ch '.') ∧ (rest = [] ∨ rest.head? = some Separator) then
      cleanLoop rooted fuel rest out dotdot
    else if c = (ch '.') ∧ rest.head? = some (ch '.') ∧
        (rest.tail = [] ∨ rest.tail.head? = some Separator) then
      if out.length > dotdot then
        cleanLoop rooted fuel rest.tail (backtrack dotdot out.reverse).reverse dotdot
      else if !rooted then
        let out := (if out.length > 0 then out ++ [Separator] else out) ++ [(ch '.'), (ch '.')]
        cleanLoop rooted fuel rest.tail out out.length
      else
        cleanLoop rooted fuel rest.tail out dotdot
    else
      let out :=
        if (rooted ∧ out.length ≠ 1) ∨ (!rooted ∧ out.length ≠ 0) then out ++ [Separator]
        else out
      cleanLoop rooted fuel ((c :: rest).dropWhile (· ≠ Separator))
        (out ++ (c :: rest).takeWhile (· ≠ Separator)) dotdot

/-- The function `filepath.Clean`. -/
def Clean (path : GoString) : GoString :=
  if path = [] then [(ch '.')]
  else
    let rooted : Bool := path.head? = some Separator
    let out :=
      if rooted then cleanLoop true path.length path.tail [Separator] 1
      else cleanLoop false path.length path [] 0
    if out = [] then [(ch '.')] else out

/-- The function `filepath.Join`: the elements from the first non-empty one
on, joined by the separator and cleaned. -/
def Join : List GoString → GoString
  | [] => []
  | e :: rest =>
    if e ≠ [] then Clean (List.intercalate [Separator] (e :: rest)) else Join rest

end filepath

/-- The function `ObjectUrl`. -/
def ObjectUrl (w : World) (oid : GoString) : URL :=
  { w.endpoint with
    Path := filepath.Join [w.endpoint.Path, (text "/objects/") ++ oid] }

/-! ## `encoding/base64` -/

namespace base64

/-- An `Encoding`: its 64-character alphabet (`encode`); the padding character
is the standard `=`. -/
structure Encoding where
  encode : GoString

/-- The constant `encodeStd`. -/
def encodeStd : GoString :=
  (text "ABCDEFGHIJKLMNOPQRSTUVWXYZabcdefghijklmnopqrstuvwxyz0123456789+/")

/-- The constant `encodeURL`. -/
def encodeURL : GoString :=
  (text "ABCDEFGHIJKLMNOPQRSTUVWXYZabcdefghijklmnopqrstuvwxyz0123456789-_")

/-- The variable `base64.StdEncoding`. -/
def StdEncoding : Encoding := ⟨encodeStd⟩

/-- The variable `base64.URLEncoding`. -/
def URLEncoding : Encoding := ⟨encodeURL⟩

/-- The padding character `StdPadding`. -/
def padChar : Byte := (ch '=')

/-- The alphabet entry `enc.encode[i]`. -/
def Encoding.char (enc : Encoding) (i : Nat) : Byte := enc.encode.getD i padChar

/-- The method `EncodeToString`: three bytes become four characters, a last
group of one or two bytes is padded with `=`. -/
def EncodeToString (enc : Encoding) : GoString → GoString
  | [] => []
  | [a] =>
    let val := a.val * 65536
    [enc.char (val / 262144 % 64), enc.char (val / 4096 % 64), padChar, padChar]
  | [a, b] =>
    let val := a.val * 65536 + b.val * 256
    [enc.char (val / 262144 % 64), enc.char (val / 4096 % 64),
      enc.char (val / 64 % 64), padChar]
  | a :: b :: c :: rest =>
    let val := a.val * 65536 + b.val * 256 + c.val
    enc.char (val / 262144 % 64) :: enc.char (val / 4096 % 64) ::
      enc.char (val / 64 % 64) :: enc.char (val % 64) :: EncodeToString enc rest

/-- The value of a character in the alphabet, if it is in the alphabet. -/
def Encoding.value (enc : Encoding) (c : Byte) : Option Nat :=
  if enc.encode.indexOf c < 64 then some (enc.encode.indexOf c) else none

/-- Base64 decoding as RFC 4648 defines it: four characters of the alphabet
give three bytes; the last group may end in one or two `=`, and then gives two
bytes or one.  Anything else is rejected. -/
def DecodeString (enc : Encoding) : GoString → Option GoString
  | [] => some []
  | c1 :: c2 :: c3 :: c4 :: rest =>
    if rest = [] ∧ c4 = padChar then
      if c3 = padChar then
        match enc.value c1, enc.value c2 with
        | some v1, some v2 => some [byteOf (v1 * 4 + v2 / 16)]
        | _, _ => none
      else
        match enc.value c1, enc.value c2, enc.value c3 with
        | some v1, some v2, some v3 =>
          some [byteOf (v1 * 4 + v2 / 16), byteOf (v2 % 16 * 16 + v3 / 4)]
        | _, _, _ => none
    else
      match enc.value c1, enc.value c2, enc.value c3, enc.value c4, DecodeString enc rest with
      | some v1, some v2, some v3, some v4, some bs =>
        some (byteOf (v1 * 4 + v2 / 16) :: byteOf (v2 % 16 * 16 + v3 / 4) ::
          byteOf (v3 % 4 * 64 + v4) :: bs)
      | _, _, _, _, _ => none
  | _ => none

end base64

/-- The byte `:`. -/
def colon : Byte := (ch ':')

/-- The lower-case form of an ASCII byte. -/
def asciiLower (b : Byte) : Byte :=
  if (ch 'A') ≤ b ∧ b ≤ (ch 'Z') then byteOf (b.val + 32) else b

/-- The value `"Basic " + base64.URLEncoding.EncodeToString([]byte(token))`
that `clientRequest` computes, `token` being
`fmt.Sprintf("%s:%s", creds["username"], creds["password"])`. -/
def basicAuth (creds : Creds) : GoString :=
  (text "Basic ") ++
    base64.EncodeToString base64.URLEncoding
      (creds.get "username" ++ [colon] ++ creds.get "password")

/-- The function `clientRequest`.  A nil `Creds` map is the empty list. -/
def clientRequest (w : World) (method : String) (oid : GoString) :
    (Option Request × Creds × Option GoError) × List Event :=
  let u := ObjectUrl w oid
  match w.newRequestError method (w.urlString u) with
  | none =>
    let req : Request :=
      { Method := method, URL := w.urlString u, Header := [], Body := .none,
        ContentLength := 0 }
    match w.credentials u with
    | .error e => ((some req, [], some (.lib e)), [.credentials u])
    | .ok creds =>
      ((some { req with Header := req.Header.Set "Authorization" (basicAuth creds) },
        creds, none), [.credentials u])
  | some e => ((none, [], some (.lib e)), [])

/-- How an HTTP server reads Basic authentication (`parseBasicAuth` of
`net/http`): the value must start with `Basic ` (in any letter case), what
follows is decoded as standard base64, and the result is split at the first
colon into user name and password. -/
def parseBasicAuth (auth : GoString) : Option (GoString × GoString) :=
  if (auth.take 6).map asciiLower = (text "basic ") then
    match base64.DecodeString base64.StdEncoding (auth.drop 6) with
    | some cs =>
      if colon ∈ cs then
        some (cs.takeWhile (· ≠ colon), (cs.dropWhile (· ≠ colon)).drop 1)
      else none
    | none => none
  else none

/-! ## `mime.ParseMediaType` (after the `mime` package of Go 1.21) -/

namespace mime

/-- The function `unicode.IsSpace`, on the number of a rune. -/
def isSpace (r : Nat) : Bool :=
  (9 ≤ r ∧ r ≤ 13) ∨ r = 0x20 ∨ r = 0x85 ∨ r = 0xA0 ∨ r = 0x1680 ∨
    (0x2000 ≤ r ∧ r ≤ 0x200a) ∨ r = 0x2028 ∨ r = 0x2029 ∨ r = 0x202f ∨
    r = 0x205f ∨ r = 0x3000

/-- The constant `utf8.RuneError`. -/
def RuneError : Nat := 0xFFFD

/-- Whether a byte is a UTF-8 continuation byte, `0x80` to `0xBF`. -/
def isCont (b : Byte) : Bool := 0x80 ≤ b.val ∧ b.val ≤ 0xBF

/-- The function `utf8.DecodeRuneInString`: the first rune of `s` and its width
in bytes; `(RuneError, 1)` when `s` does not start with a well-formed
encoding, `(RuneError, 0)` when `s` is empty. -/
def decodeRune : GoString → Nat × Nat
  | [] => (RuneError, 0)
  | b0 :: rest =>
    if b0.val < 0x80 then (b0.val, 1)
    else if 0xC2 ≤ b0.val ∧ b0.val ≤ 0xDF then
      match rest with
      | b1 :: _ =>
        if isCont b1 then (b0.val % 32 * 64 + b1.val % 64, 2) else (RuneError, 1)
      | _ => (RuneError, 1)
    else if 0xE0 ≤ b0.val ∧ b0.val ≤ 0xEF then
      match rest with
      | b1 :: b2 :: _ =>
        if (if b0.val = 0xE0 then 0xA0 else 0x80) ≤ b1.val ∧
            b1.val ≤ (if b0.val = 0xED then 0x9F else 0xBF) ∧ isCont b2 then
          (b0.val % 16 * 4096 + b1.val % 64 * 64 + b2.val % 64, 3)
        else (RuneError, 1)
      | _ => (RuneError, 1)
    else if 0xF0 ≤ b0.val ∧ b0.val ≤ 0xF4 then
      match rest with
      | b1 :: b2 :: b3 :: _ =>
        if (if b0.val = 0xF0 then 0x90 else 0x80) ≤ b1.val ∧
            b1.val ≤ (if b0.val = 0xF4 then 0x8F else 0xBF) ∧ isCont b2 ∧ isCont b3 then
          (b0.val % 8 * 262144 + b1.val % 64 * 4096 + b2.val % 64 * 64 + b3.val % 64, 4)
        else (RuneError, 1)
      | _ => (RuneError, 1)
    else (RuneError, 1)

/-- The distance from the head of a reversed string to its first byte that
starts a rune (`utf8.RuneStart`), if there is one. -/
def firstRuneStart : GoString → Option Nat
  | [] => none
  | b :: rest => if !isCont b then some 0 else (firstRuneStart rest).map (· + 1)

/-- The function `utf8.DecodeLastRuneInString`: the last rune of `s` and its
width.  The start of the rune is looked for among the three bytes before the
last one; what starts there must decode to a rune that ends where `s` ends. -/
def decodeLastRune (s : GoString) : Nat × Nat :=
  match s.reverse with
  | [] => (RuneError, 0)
  | last :: before =>
    if last.val < 0x80 then (last.val, 1)
    else
      match firstRuneStart (before.take 3) with
      | some k =>
        if (decodeRune (s.drop (s.length - (k + 2)))).2 = k + 2 then
          decodeRune (s.drop (s.length - (k + 2)))
        else (RuneError, 1)
      | none => (RuneError, 1)

/-- The loop of `strings.TrimLeftFunc(s, unicode.IsSpace)`: leading white-space
runes are dropped.  Every round drops at least one byte. -/
def trimLeftLoop : Nat → GoString → GoString
  | 0, s => s
  | fuel + 1, s =>
    if isSpace (decodeRune s).1 then trimLeftLoop fuel (s.drop (decodeRune s).2) else s

/-- The call `strings.TrimLeftFunc(s, unicode.IsSpace)`. -/
def TrimLeftSpace (s : GoString) : GoString := trimLeftLoop s.length s

/-- The loop of `strings.TrimRightFunc(s, unicode.IsSpace)`: trailing
white-space runes are dropped.  Every round drops at least one byte. -/
def trimRightLoop : Nat → GoString → GoString
  | 0, s => s
  | fuel + 1, s =>
    if isSpace (decodeLastRune s).1 then
      trimRightLoop fuel (s.take (s.length - (decodeLastRune s).2))
    else s

/-- The function `strings.TrimSpace`: white-space runes are dropped on both
sides. -/
def TrimSpace (s : GoString) : GoString :=
  trimRightLoop s.length (TrimLeftSpace s)

/-- The function `strings.ToLower`.  A string of ASCII bytes is lower-cased
byte by byte; any other string goes through `strings.Map(unicode.ToLower, s)`,
here `lower`. -/
def ToLower (lower : GoString → GoString) (s : GoString) : GoString :=
  if s.all (fun b => b.val < 0x80) then s.map asciiLower else lower s

/-- The function `isTSpecial`. -/
def isTSpecial (r : Byte) : Bool := r ∈ (text "()<>@,;:\\\"/[]?=")

/-- The function `isTokenChar`. -/
def isTokenChar (r : Byte) : Bool :=
  r.val > 0x20 ∧ r.val < 0x7f ∧ !isTSpecial r

/-- The function `consumeToken`: the longest run of token characters at the
start of `v`, and what follows it.  A token character is an ASCII byte, and
the first byte of any other rune is not one, so the run of token runes that
`strings.IndexFunc` finds is the run of token bytes. -/
def consumeToken (v : GoString) : GoString × GoString :=
  (v.takeWhile isTokenChar, v.dropWhile isTokenChar)

/-- The loop of `consumeValue` over a quoted string, after the opening quote:
the unquoted value and what follows the closing quote; `none` when there is no
closing quote or the string holds a line break. -/
def consumeQuoted (buffer : GoString) : GoString → Option (GoString × GoString)
  | [] => none
  | [r] => if r = (ch '"') then some (buffer, []) else none
  | r :: next :: rest =>
    if r = (ch '"') then some (buffer, next :: rest)
    else if r = (ch '\\') ∧ isTSpecial next then consumeQuoted (buffer ++ [next]) rest
    else if r = (ch '\r') ∨ r = (ch '\n') then none
    else consumeQuoted (buffer ++ [r]) (next :: rest)

/-- The function `consumeValue`. -/
def consumeValue (v : GoString) : GoString × GoString :=
  match v with
  | [] => ([], [])
  | c :: rest =>
    if c ≠ (ch '"') then consumeToken v
    else
      match consumeQuoted [] rest with
      | some r => r
      | none => ([], v)

/-- The function `consumeMediaParam`: the (lower-cased) name and the value of
the parameter at the start of `v` and what follows it, or an empty name and
`v` itself. -/
def consumeMediaParam (lower : GoString → GoString) (v : GoString) :
    GoString × GoString × GoString :=
  let rest := TrimLeftSpace v
  if rest.head? ≠ some (ch ';') then ([], [], v)
  else
    let rest := TrimLeftSpace (rest.drop 1)
    let param := ToLower lower (consumeToken rest).1
    let rest := (consumeToken rest).2
    if param = [] then ([], [], v)
    else
      let rest := TrimLeftSpace rest
      if rest.head? ≠ some (ch '=') then ([], [], v)
      else
        let rest := TrimLeftSpace (rest.drop 1)
        let value := (consumeValue rest).1
        let rest2 := (consumeValue rest).2
        if value = [] ∧ rest2 = rest then ([], [], v)
        else (param, value, rest2)

/-- The function `checkMediaTypeDisposition`: the error, if any. -/
def checkMediaTypeDisposition (s : GoString) : Option LibError :=
  let typ := (consumeToken s).1
  let rest := (consumeToken s).2
  if typ = [] then some ⟨"mime: no media type"⟩
  else if rest = [] then none
  else if rest.head? ≠ some (ch '/') then some ⟨"mime: expected slash after first token"⟩
  else
    let subtype := (consumeToken (rest.drop 1)).1
    let rest := (consumeToken (rest.drop 1)).2
    if subtype = [] then some ⟨"mime: expected token after slash"⟩
    else if rest ≠ [] then some ⟨"mime: unexpected content after media subtype"⟩
    else none

/-- A Go `map[string]string`. -/
abbrev Params := List (GoString × GoString)

/-- The map write `m[key] = value`. -/
def mapSet {β : Type} (m : List (GoString × β)) (key : GoString) (value : β) :
    List (GoString × β) :=
  (key, value) :: m.filter (fun kv => kv.1 != key)

/-- The function `ishex`. -/
def ishex (c : Byte) : Bool :=
  ((ch '0') ≤ c ∧ c ≤ (ch '9')) ∨ ((ch 'a') ≤ c ∧ c ≤ (ch 'f')) ∨ ((ch 'A') ≤ c ∧ c ≤ (ch 'F'))

/-- The function `unhex`. -/
def unhex (c : Byte) : Nat :=
  if (ch '0') ≤ c ∧ c ≤ (ch '9') then c.val - (ch '0').val
  else if (ch 'a') ≤ c ∧ c ≤ (ch 'f') then c.val - (ch 'a').val + 10
  else if (ch 'A') ≤ c ∧ c ≤ (ch 'F') then c.val - (ch 'A').val + 10
  else 0

/-- The function `percentHexUnescape`; `none` is its error: a `%` that is not
followed by two hexadecimal digits. -/
def percentHexUnescape : GoString → Option GoString
  | [] => some []
  | c :: rest =>
    if c = (ch '%') then
      match rest with
      | h1 :: h2 :: rest2 =>
        if ishex h1 ∧ ishex h2 then
          (percentHexUnescape rest2).map (byteOf (unhex h1 * 16 + unhex h2) :: ·)
        else none
      | _ => none
    else (percentHexUnescape rest).map (c :: ·)

/-- The function `decode2231Enc`; `none` stands for `ok == false`. -/
def decode2231Enc (lower : GoString → GoString) (v : GoString) : Option GoString :=
  if v.count (ch '\'') < 2 then none
  else
    let charset := ToLower lower (v.takeWhile (· ≠ (ch '\'')))
    let afterLang := (((v.dropWhile (· ≠ (ch '\''))).drop 1).dropWhile (· ≠ (ch '\''))).drop 1
    if charset = [] then none
    else if charset ≠ (text "us-ascii") ∧ charset ≠ (text "utf-8") then none
    else percentHexUnescape afterLang

/-- The map of the parameters whose name holds a `*`: base name to the map of
its pieces. -/
abbrev Continuation := List (GoString × Params)

/-- The error `ErrInvalidMediaParameter`. -/
def ErrInvalidMediaParameter : LibError := ⟨"mime: invalid media parameter"⟩

/-- The parameter loop of `ParseMediaType`.  Every round that goes on reads at
least the `;` of a parameter, so `v.length + 1` rounds of fuel are enough. -/
def paramLoop (lower : GoString → GoString) : Nat → GoString → Params → Continuation →
    Except LibError (Params × Continuation)
  | 0, _, params, continuation => .ok (params, continuation)
  | fuel + 1, v, params, continuation =>
    let v := TrimLeftSpace v
    if v = [] then .ok (params, continuation)
    else
      let key := (consumeMediaParam lower v).1
      let value := (consumeMediaParam lower v).2.1
      let rest := (consumeMediaParam lower v).2.2
      if key = [] then
        if TrimSpace rest = [(ch ';')] then .ok (params, continuation)
        else .error ErrInvalidMediaParameter
      else if (ch '*') ∈ key then
        let baseName := key.takeWhile (· ≠ (ch '*'))
        let pmap := (continuation.lookup baseName).getD []
        if (∃ old, pmap.lookup key = some old ∧ old ≠ value) then
          .error ⟨"mime: duplicate parameter name"⟩
        else
          paramLoop lower fuel rest params (mapSet continuation baseName (mapSet pmap key value))
      else
        if (∃ old, params.lookup key = some old ∧ old ≠ value) then
          .error ⟨"mime: duplicate parameter name"⟩
        else
          paramLoop lower fuel rest (mapSet params key value) continuation

/-- The inner loop of the stitching of `ParseMediaType`: the pieces `key*0`,
`key*1`, ... (or their encoded forms `key*0*`, ...) are appended to the buffer
until one is missing.  A map of `k` pieces needs at most `k + 1` rounds. -/
def stitchPieces (lower : GoString → GoString) (key : GoString) (pieceMap : Params) :
    Nat → Nat → GoString → Bool → GoString × Bool
  | 0, _, buf, valid => (buf, valid)
  | fuel + 1, n, buf, valid =>
    let simplePart := key ++ [(ch '*')] ++ text (Nat.repr n)
    match pieceMap.lookup simplePart with
    | some v => stitchPieces lower key pieceMap fuel (n + 1) (buf ++ v) true
    | none =>
      match pieceMap.lookup (simplePart ++ [(ch '*')]) with
      | none => (buf, valid)
      | some v =>
        if n = 0 then
          stitchPieces lower key pieceMap fuel (n + 1) (buf ++ (decode2231Enc lower v).getD []) true
        else
          stitchPieces lower key pieceMap fuel (n + 1) (buf ++ (percentHexUnescape v).getD []) true

/-- The stitching of `ParseMediaType`, for one base name. -/
def stitchOne (lower : GoString → GoString) (params : Params) (entry : GoString × Params) :
    Params :=
  let key := entry.1
  let pieceMap := entry.2
  match pieceMap.lookup (key ++ [(ch '*')]) with
  | some v =>
    match decode2231Enc lower v with
    | some decv => mapSet params key decv
    | none => params
  | none =>
    let r := stitchPieces lower key pieceMap (pieceMap.length + 1) 0 [] false
    if r.2 then mapSet params key r.1 else params

/-- The function `mime.ParseMediaType`: media type, parameters and error. -/
def ParseMediaType (lower : GoString → GoString) (v : GoString) :
    GoString × Params × Option LibError :=
  let base := v.takeWhile (· ≠ (ch ';'))
  let mediatype := TrimSpace (ToLower lower base)
  match checkMediaTypeDisposition mediatype with
  | some err => ([], [], some err)
  | none =>
    match paramLoop lower (v.length + 1) (v.drop base.length) [] [] with
    | .error err =>
      (if err = ErrInvalidMediaParameter then mediatype else [], [], some err)
    | .ok (params, continuation) =>
      (mediatype, continuation.foldl (stitchOne lower) params, none)

end mime

/-! ## `io` -/

namespace io

/-- The error `io.EOF`. -/
def EOF : GoError := .lib ⟨"EOF"⟩

/-- The error `io.ErrUnexpectedEOF`. -/
def ErrUnexpectedEOF : GoError := .lib ⟨"unexpected EOF"⟩

/-- The call `io.ReadAtLeast(reader, buf, len(buf))` on a stream that holds
`reader` and then ends: the bytes read, the error, and what is left of the
stream.  With fewer than `len(buf)` bytes in the stream everything is read and
the error is `ErrUnexpectedEOF`, or `EOF` when nothing was read. -/
def ReadAtLeast (reader : GoString) (n : Nat) : GoString × Option GoError × GoString :=
  if n ≤ reader.length then (reader.take n, none, reader.drop n)
  else if reader = [] then ([], some EOF, [])
  else (reader, some ErrUnexpectedEOF, [])

end io

/-- The constant `gitMediaType`. -/
def gitMediaType : GoString := (text "application/vnd.git-media")

/-- The constant `gitMediaMetaType`. -/
def gitMediaMetaType : GoString := gitMediaType ++ (text "+json; charset=utf-8")

/-- The function `validateMediaHeader`: its two results and what is left of
the reader. -/
def validateMediaHeader (w : World) (contentType : GoString) (reader : GoString) :
    (Bool × Option GoError) × GoString :=
  match mime.ParseMediaType w.mapToLower contentType with
  | (_, _, some _) => ((false, some (.new "Invalid Media Type")), reader)
  | (mediaType, params, none) =>
    if mediaType ≠ gitMediaType then
      ((false, some (.new "Invalid Media Type")), reader)
    else
      match params.lookup (text "header") with
      | none => ((false, some (.new "Invalid header")), reader)
      | some givenHeader =>
        let fullGivenHeader := (text "--") ++ givenHeader ++ (text "\n")
        match io.ReadAtLeast reader fullGivenHeader.length with
        | (_, some err, reader) => ((false, some err), reader)
        | (header, none, reader) =>
          if header ≠ fullGivenHeader then
            ((false, some (.new "Invalid header")), reader)
          else ((true, none), reader)

/-- The function `Options`: its error and the events caused. -/
def Options (w : World) (filehash : GoString) : Option GoError × List Event :=
  let oid := filepath.Base filehash
  match w.stat filehash with
  | .error err => (some (.lib err), [.stat filehash])
  | .ok _ =>
    match clientRequest w "OPTIONS" oid with
    | ((_, _, some err), t) => (some err, .stat filehash :: t)
    | ((none, _, none), t) => (some .nilDeref, .stat filehash :: t)
    | ((some req, creds, none), t) =>
      match doRequest w req creds with
      | ((_, some err), t2) => (some err, .stat filehash :: t ++ t2)
      | ((_, none), t2) => (none, .stat filehash :: t ++ t2)

/-- The function `Put`: its error and the events caused. -/
def Put (w : World) (filehash filename : GoString) : Option GoError × List Event :=
  let filename := if filename = [] then filehash else filename
  let oid := filepath.Base filehash
  match w.stat filehash with
  | .error err => (some (.lib err), [.stat filehash])
  | .ok size =>
    match w.osOpen filehash with
    | some err => (some (.lib err), [.stat filehash, .osOpen filehash])
    | none =>
      match clientRequest w "PUT" oid with
      | ((_, _, some err), t) => (some err, [.stat filehash, .osOpen filehash] ++ t)
      | ((none, _, none), t) => (some .nilDeref, [.stat filehash, .osOpen filehash] ++ t)
      | ((some req, creds, none), t) =>
        let req : Request :=
          { req with
            Header := (req.Header.Set "Content-Type" gitMediaType).Set "Accept" gitMediaMetaType
            Body := .file filehash
            ContentLength := size }
        let t := [.stat filehash, .osOpen filehash] ++ t ++
          [.progress size, .print ((text "Sending ") ++ filename ++ (text "\n"))]
        match doRequest w req creds with
        | ((_, some err), t2) => (some err, t ++ t2)
        | ((_, none), t2) => (none, t ++ t2)

/-- What `Get` hands to its caller: the response body, positioned where the
client left it, or the opened local file. -/
inductive ReadCloser where
  | body (rest : GoString)
  | file (path : GoString)
  deriving DecidableEq, Repr

/-- The function `Get`. -/
def Get (w : World) (filename : GoString) : Outcome ReadCloser :=
  let oid := filepath.Base filename
  match w.stat filename with
  | .error _ =>
    match clientRequest w "GET" oid with
    | ((_, _, some err), t) => ((none, some err), .stat filename :: t)
    | ((none, _, none), t) => ((none, some .nilDeref), .stat filename :: t)
    | ((some req, creds, none), t) =>
      let req : Request := { req with Header := req.Header.Set "Accept" gitMediaType }
      match doRequest w req creds with
      | ((_, some err), t2) => ((none, some err), .stat filename :: t ++ t2)
      | ((none, none), t2) => ((none, some .nilDeref), .stat filename :: t ++ t2)
      | ((some res, none), t2) =>
        let contentType := res.Header.Get "Content-Type"
        if contentType = [] then
          ((none, some (.new "Invalid Content-Type")), .stat filename :: t ++ t2)
        else
          match validateMediaHeader w contentType res.Body with
          | ((false, err), _) => ((none, err), .stat filename :: t ++ t2)
          | ((true, _), rest) => ((some (.body rest), none), .stat filename :: t ++ t2)
  | .ok _ =>
    match w.osOpen filename with
    | none => ((some (.file filename), none), [.stat filename, .osOpen filename])
    | some err => ((none, some (.lib err)), [.stat filename, .osOpen filename])

/-- Whether an event reaches the credential helper or the network. -/
def Event.isRemote : Event → Bool
  | .credentials _ => true
  | .execCreds _ _ => true
  | .httpDo _ => true
  | _ => false

/-- A fragment of `strings.Map(unicode.ToLower, s)` for the examples: ASCII
letters, and the capital I with dot above, U+0130 (the bytes `C4 B0`), which
Go lower-cases to `i`. -/
def exampleLower : GoString → GoString
  | [] => []
  | [b] => [asciiLower b]
  | b0 :: b1 :: rest =>
    if b0.val = 0xC4 ∧ b1.val = 0xB0 then (ch 'i') :: exampleLower rest
    else asciiLower b0 :: exampleLower (b1 :: rest)

/-- Credentials used in examples. -/
def exampleCreds : Creds := [("username", text "alice"), ("password", text "secret")]

/-- A world for examples: the endpoint `https://example.com/media/`, the local
files `files` (path and size), a credential helper that answers `creds`, and a
server `respond`. -/
def exampleWorld (files : List (GoString × Int)) (creds : Creds)
    (respond : Request → DoResult) : World where
  endpoint := ⟨(text "https"), (text "example.com"), (text "/media/"), []⟩
  urlString u := u.Scheme ++ (text "://") ++ u.Host ++ u.Path
  stat path :=
    match files.lookup path with
    | some size => .ok size
    | none => .error ⟨"no such file or directory"⟩
  osOpen path :=
    match files.lookup path with
    | some _ => none
    | none => some ⟨"no such file or directory"⟩
  newRequestError _ _ := none
  credentials _ := .ok creds
  httpDo := respond
  jsonDecode body :=
    if body = (text "\x7b\"message\":\"Not found\"\x7d") then (.ok ⟨"Not found", ""⟩, [])
    else (.error ⟨"invalid character"⟩, [])
  mapToLower := exampleLower

/-! ## Vocabulary of the statements -/

/-- The call `Get(filename)` finds no local file, builds its request, and
`doRequest` hands it the response `res` with a nil error. -/
def GetReceives (w : World) (filename : GoString) (res : Response) : Prop :=
  ∃ err req creds t t2,
    w.stat filename = .error err ∧
    clientRequest w "GET" (filepath.Base filename) = ((some req, creds, none), t) ∧
    doRequest w { req with Header := req.Header.Set "Accept" gitMediaType } creds
      = ((some res, none), t2)

namespace filepath

/-- An ordinary path element: not empty, without separator, neither `.` nor
`..`. -/
def IsElement (seg : GoString) : Prop :=
  seg ≠ [] ∧ Separator ∉ seg ∧ seg ≠ [(ch '.')] ∧ seg ≠ [(ch '.'), (ch '.')]

/-- The text of a path: every element preceded by `extra + 1` separators, then
`trailing` separators. -/
def rawPath : List (Nat × GoString) → Nat → GoString
  | [], trailing => List.replicate trailing Separator
  | (extra, seg) :: rest, trailing =>
    List.replicate (extra + 1) Separator ++ (seg ++ rawPath rest trailing)

/-- The clean rooted path of the given elements: every element preceded by one
separator. -/
def pathOf : List GoString → GoString
  | [] => []
  | seg :: rest => Separator :: (seg ++ pathOf rest)

/-- The buffer of a rooted `Clean` after one more element: a separator is
written first unless the buffer holds the root alone. -/
def appendElement (out seg : GoString) : GoString :=
  (if out.length ≠ 1 then out ++ [Separator] else out) ++ seg

end filepath

/-- A request used in examples. -/
def exampleRequest : Request :=
  ⟨"GET", (text "https://example.com/media/objects/abc"),
    [("Authorization", (text "Basic YWxpY2U6c2VjcmV0"))], .none, 0⟩

/-- The response `404` with a JSON error document. -/
def notFound : Response := ⟨404, [], (text "\x7b\"message\":\"Not found\"\x7d")⟩

/-- The response `500` with a body that is not JSON. -/
def brokenError : Response := ⟨500, [], (text "<html>")⟩

/-- A download: the response `200` with the boundary `ABC123` and the given body. -/
def download (body : GoString) : Response :=
  ⟨200, [("Content-Type", (text "application/vnd.git-media; header=ABC123"))], body⟩


/-! # Theorems -/

/-! ## Test vectors of the embedded library functions -/

theorem base64_vectors :
    base64.EncodeToString base64.StdEncoding (text "Man") = (text "TWFu") ∧
    base64.EncodeToString base64.StdEncoding (text "Ma") = (text "TWE=") ∧
    base64.EncodeToString base64.StdEncoding (text "M") = (text "TQ==") ∧
    base64.EncodeToString base64.StdEncoding (text "a:?") = (text "YTo/") ∧
    base64.EncodeToString base64.URLEncoding (text "a:?") = (text "YTo_") ∧
    base64.DecodeString base64.StdEncoding (text "TWFu") = some (text "Man") ∧
    base64.DecodeString base64.StdEncoding (text "TWE=") = some (text "Ma") ∧
    base64.DecodeString base64.StdEncoding (text "TQ==") = some (text "M") ∧
    base64.DecodeString base64.StdEncoding (text "YTo_") = none ∧
    basicAuth [("username", text "Aladdin"), ("password", text "open sesame")]
      = (text "Basic QWxhZGRpbjpvcGVuIHNlc2FtZQ==") ∧
    parseBasicAuth (text "Basic QWxhZGRpbjpvcGVuIHNlc2FtZQ==")
      = some (text "Aladdin", text "open sesame") := by
  decide

/-- UTF-8 decoding, trimming and lower-casing on strings with bytes outside
ASCII: `é` is `C3 A9`, the euro sign `E2 82 AC`, the no-break space `C2 A0`, the
em space `E2 80 83`. -/
theorem utf8_vectors :
    text "é" = [0xC3, 0xA9] ∧
    mime.decodeRune (text "é/") = (0xE9, 2) ∧
    mime.decodeRune (text "€") = (0x20AC, 3) ∧
    mime.decodeRune [0xF0, 0x9F, 0x98, 0x80] = (0x1F600, 4) ∧
    mime.decodeRune [0xC3] = (mime.RuneError, 1) ∧
    mime.decodeRune [0xC0, 0x80] = (mime.RuneError, 1) ∧
    mime.decodeRune [0xE0, 0x80, 0x80] = (mime.RuneError, 1) ∧
    mime.decodeRune [0xED, 0xA0, 0x80] = (mime.RuneError, 1) ∧
    mime.decodeRune [0xF4, 0x90, 0x80, 0x80] = (mime.RuneError, 1) ∧
    mime.decodeLastRune [0x78, 0xC2, 0xA0] = (0xA0, 2) ∧
    mime.decodeLastRune [0x80, 0x80] = (mime.RuneError, 1) ∧
    mime.decodeLastRune [0xE2, 0x80] = (mime.RuneError, 1) ∧
    mime.TrimSpace (text "\t a b  \n") = text "a b" ∧
    mime.TrimSpace ([0xC2, 0xA0] ++ text " a" ++ [0xC2, 0xA0] ++ text "b " ++ [0xE2, 0x80, 0x83])
      = text "a" ++ [0xC2, 0xA0] ++ text "b" ∧
    mime.TrimSpace ([0xA0] ++ text "a" ++ [0x85]) = [0xA0] ++ text "a" ++ [0x85] ∧
    mime.ToLower exampleLower (text "Text/HTML") = text "text/html" ∧
    mime.ToLower exampleLower (text "İ") = text "i" := by
  refine ⟨?_, ?_, ?_, ?_, ?_, ?_, ?_, ?_, ?_, ?_, ?_, ?_, ?_, ?_, ?_, ?_, ?_⟩ <;> decide

theorem ParseMediaType_vectors :
    mime.ParseMediaType exampleLower (text "application/vnd.git-media; header=ABC123")
      = (gitMediaType, [((text "header"), (text "ABC123"))], none) ∧
    mime.ParseMediaType exampleLower (text "Application/VND.git-media ; Header=\"a b\\\"c\" ; ")
      = (gitMediaType, [((text "header"), (text "a b\"c"))], none) ∧
    mime.ParseMediaType exampleLower (text "text/plain; header=x")
      = ((text "text/plain"), [((text "header"), (text "x"))], none) ∧
    (mime.ParseMediaType exampleLower (text "application/vnd.git-media; header=")).2.2
      = some mime.ErrInvalidMediaParameter ∧
    (mime.ParseMediaType exampleLower (text "application/vnd.git-media; header=a b")).2.2
      = some mime.ErrInvalidMediaParameter ∧
    mime.ParseMediaType exampleLower (text "a/b; header*=utf-8''x%41y;q=1")
      = ((text "a/b"), [((text "header"), (text "xAy")), ((text "q"), (text "1"))], none) ∧
    mime.ParseMediaType exampleLower (text "a/b; header*0=ab;header*1*=%41")
      = ((text "a/b"), [((text "header"), (text "abA"))], none) ∧
    mime.ParseMediaType exampleLower (text "a/b; header*=utf-8''%C3%A9")
      = ((text "a/b"), [((text "header"), (text "é"))], none) ∧
    mime.ParseMediaType exampleLower (text "a/b; header=\"é\"")
      = ((text "a/b"), [((text "header"), (text "é"))], none) ∧
    mime.ParseMediaType exampleLower (text "applİcation/vnd.git-media; header=x")
      = (gitMediaType, [((text "header"), (text "x"))], none) := by
  refine ⟨?_, ?_, ?_, ?_, ?_, ?_, ?_, ?_, ?_, ?_⟩ <;> decide

/-- The envelope validator on bodies and boundaries with bytes outside ASCII:
lengths are counted in bytes. -/
theorem validateMediaHeader_vectors :
    validateMediaHeader (exampleWorld [] exampleCreds fun _ => .ok notFound)
        (text "application/vnd.git-media; header=x") (text "éé")
      = ((false, some (.new "Invalid header")), []) ∧
    validateMediaHeader (exampleWorld [] exampleCreds fun _ => .ok notFound)
        (text "application/vnd.git-media; header=\"é\"") (text "--e\n")
      = ((false, some io.ErrUnexpectedEOF), []) ∧
    validateMediaHeader (exampleWorld [] exampleCreds fun _ => .ok notFound)
        (text "application/vnd.git-media; header*=utf-8''%C3%A9") (text "--é\nrest")
      = ((true, none), text "rest") ∧
    validateMediaHeader (exampleWorld [] exampleCreds fun _ => .ok notFound)
        (text "applİcation/vnd.git-media; header=x") (text "--x\nrest")
      = ((true, none), text "rest") := by
  refine ⟨?_, ?_, ?_, ?_⟩ <;> decide

theorem filepath_vectors :
    filepath.Base (text "/a/b/c.txt") = (text "c.txt") ∧
    filepath.Base (text "a/b/") = (text "b") ∧
    filepath.Base (text "///") = (text "/") ∧
    filepath.Base (text "") = (text ".") ∧
    filepath.Base (text "..") = (text "..") ∧
    filepath.Clean (text "/a/../b//c/./d/") = (text "/b/c/d") ∧
    filepath.Clean (text "a/../../b") = (text "../b") ∧
    filepath.Clean (text "/../a") = (text "/a") ∧
    filepath.Clean (text "/a/bc/../d") = (text "/a/d") ∧
    filepath.Clean (text "..//x/..") = (text "..") ∧
    filepath.Join [(text "/media//"), (text "/objects/abc")] = (text "/media/objects/abc") ∧
    filepath.Join [(text ""), (text "/objects/abc")] = (text "/objects/abc") ∧
    filepath.Join [(text "/a"), (text "/objects/..")] = (text "/a") := by
  decide

/-- A whole download, step by step: stat, credentials, the request with its
headers, and the body handed over after the boundary line. -/
theorem Get_download_trace :
    Get (exampleWorld [] exampleCreds fun _ => .ok (download (text "--ABC123\nhello")))
        (text "dir/abc")
      = ((some (.body (text "hello")), none),
         [.stat (text "dir/abc"),
          .credentials ⟨(text "https"), (text "example.com"), (text "/media/objects/abc"), []⟩,
          .httpDo ⟨"GET", (text "https://example.com/media/objects/abc"),
            [("Accept", gitMediaType), ("Authorization", (text "Basic YWxpY2U6c2VjcmV0"))],
            .none, 0⟩]) := by
  decide

/-! ## The transport executor, `doRequest` -/

/-- C1, evaluated on the code: on the response `200` with a nil transport error
`doRequest` returns the response and a nil error, and the only event is the
HTTP call itself: nothing is reported to the credential helper, neither
`approve` nor `reject`. -/
theorem doRequest_status_200_reports_nothing :
    doRequest (exampleWorld [] exampleCreds fun _ => .ok ⟨200, [], []⟩) exampleRequest exampleCreds
      = ((some ⟨200, [], []⟩, none), [.httpDo exampleRequest]) ∧
    Event.execCreds exampleCreds "approve" ∉
      (doRequest (exampleWorld [] exampleCreds fun _ => .ok ⟨200, [], []⟩) exampleRequest exampleCreds).2 := by
  decide

/-- C2: when the transport hands over a response with a status above 299,
the events of `doRequest` are the HTTP call followed by exactly one report, of
`reject` (so no `approve`, and the report precedes the return).  If the body
decodes into an `Error`, that `Error` is the returned error, its `Error()` text
is the decoded `message`, and the response comes with it; if decoding fails,
the decoder's error is returned, which is not an `Error` value. -/
theorem doRequest_reject (w : World) (req : Request) (creds : Creds) (res : Response)
    (hdo : w.httpDo req = .ok res) (hstatus : res.StatusCode > 299) :
    (doRequest w req creds).2 = [.httpDo req, .execCreds creds "reject"] ∧
    (∀ apierr rest, w.jsonDecode res.Body = (.ok apierr, rest) →
      (doRequest w req creds).1 = (some { res with Body := rest }, some (.api apierr)) ∧
      (GoError.api apierr).Error = apierr.Message) ∧
    (∀ err rest, w.jsonDecode res.Body = (.error err, rest) →
      (doRequest w req creds).1 = (some { res with Body := rest }, some (.lib err)) ∧
      ∀ apierr, GoError.lib err ≠ GoError.api apierr) := by
  refine ⟨?_, ?_, ?_⟩
  · simp only [doRequest, hdo, hstatus, if_true]
    split <;> rfl
  · intro apierr rest hdec
    refine ⟨?_, rfl⟩
    simp only [doRequest, hdo, hstatus, if_true, hdec]
  · intro err rest hdec
    refine ⟨?_, fun _ h => by cases h⟩
    simp only [doRequest, hdo, hstatus, if_true, hdec]

/-- C10: when the transport fails, the events of `doRequest` are the HTTP call
followed by exactly one report, of `approve` (so no `reject`, and the report
precedes the return), and the error returned is the transport's error. -/
theorem doRequest_transport_failure (w : World) (req : Request) (creds : Creds)
    (res : Option Response) (err : LibError) (hdo : w.httpDo req = .fail res err) :
    doRequest w req creds =
      ((res, some (.lib err)), [.httpDo req, .execCreds creds "approve"]) := by
  simp only [doRequest, hdo]

/-- C2, an instance: the response `404` with a JSON error document whose
message is `Not found`, and the response `500` with a body that is not JSON. -/
theorem doRequest_reject_witness :
    (exampleWorld [] exampleCreds fun _ => .ok notFound).httpDo exampleRequest = .ok notFound ∧
    notFound.StatusCode > 299 ∧
    doRequest (exampleWorld [] exampleCreds fun _ => .ok notFound) exampleRequest exampleCreds
      = ((some { notFound with Body := [] }, some (.api ⟨"Not found", ""⟩)),
          [.httpDo exampleRequest, .execCreds exampleCreds "reject"]) ∧
    doRequest (exampleWorld [] exampleCreds fun _ => .ok brokenError) exampleRequest exampleCreds
      = ((some { brokenError with Body := [] }, some (.lib ⟨"invalid character"⟩)),
          [.httpDo exampleRequest, .execCreds exampleCreds "reject"]) :=
  have h1 := doRequest_reject (exampleWorld [] exampleCreds fun _ => .ok notFound)
    exampleRequest exampleCreds notFound rfl (by decide)
  have h2 := doRequest_reject (exampleWorld [] exampleCreds fun _ => .ok brokenError)
    exampleRequest exampleCreds brokenError rfl (by decide)
  ⟨rfl, by decide,
    Prod.ext (h1.2.1 ⟨"Not found", ""⟩ [] rfl).1 h1.1,
    Prod.ext (h2.2.2 ⟨"invalid character"⟩ [] rfl).1 h2.1⟩

/-- C10, an instance: a refused connection. -/
theorem doRequest_transport_failure_witness :
    (exampleWorld [] exampleCreds fun _ => .fail none ⟨"connection refused"⟩).httpDo
        exampleRequest = .fail none ⟨"connection refused"⟩ ∧
    doRequest (exampleWorld [] exampleCreds fun _ => .fail none ⟨"connection refused"⟩)
        exampleRequest exampleCreds
      = ((none, some (.lib ⟨"connection refused"⟩)),
          [.httpDo exampleRequest, .execCreds exampleCreds "approve"]) :=
  ⟨rfl, doRequest_transport_failure
    (exampleWorld [] exampleCreds fun _ => .fail none ⟨"connection refused"⟩)
    exampleRequest exampleCreds none ⟨"connection refused"⟩ rfl⟩

/-! ## The local short-circuit of `Get` -/

/-- C9: when the stat of `filename` succeeds, `Get` returns what opening the
local file gives and its only events are the stat and the open, whatever the
server would answer; and an event that reaches the credential helper or the
network occurs in `Get` only when the stat fails. -/
theorem Get_local_file (w : World) (filename : GoString) :
    (∀ size, w.stat filename = .ok size →
      (Get w filename).2 = [.stat filename, .osOpen filename] ∧
      (Get w filename).1 =
        (match w.osOpen filename with
          | none => (some (.file filename), none)
          | some err => (none, some (.lib err)))) ∧
    ((∃ ev ∈ (Get w filename).2, ev.isRemote = true) →
      ∃ err, w.stat filename = .error err) := by
  refine ⟨?_, ?_⟩
  · intro size hstat
    simp only [Get, hstat]
    cases w.osOpen filename <;> exact ⟨rfl, rfl⟩
  · rintro ⟨ev, hev, hremote⟩
    cases hstat : w.stat filename with
    | error err => exact ⟨err, rfl⟩
    | ok size =>
      simp only [Get, hstat] at hev
      cases hopen : w.osOpen filename <;> simp only [hopen] at hev <;>
        simp at hev <;> rcases hev with rfl | rfl <;> simp [Event.isRemote] at hremote

/-- C9, an instance: the local file `dir/abc` exists, and the server would
answer with a different object. -/
theorem Get_local_file_witness :
    (exampleWorld [((text "dir/abc"), 5)] exampleCreds
        fun _ => .ok (download (text "--ABC123\nother"))).stat (text "dir/abc") = .ok 5 ∧
    Get (exampleWorld [((text "dir/abc"), 5)] exampleCreds
        fun _ => .ok (download (text "--ABC123\nother"))) (text "dir/abc")
      = ((some (.file (text "dir/abc")), none),
          [.stat (text "dir/abc"), .osOpen (text "dir/abc")]) :=
  have h := (Get_local_file (exampleWorld [((text "dir/abc"), 5)] exampleCreds
    fun _ => .ok (download (text "--ABC123\nother"))) (text "dir/abc")).1 5 rfl
  ⟨rfl, Prod.ext h.2 h.1⟩

/-! ## The envelope validator, `validateMediaHeader` -/

namespace mime

theorem takeWhile_stop {p : Byte → Bool} (pre : GoString) (c : Byte) (rest : GoString)
    (hpre : ∀ a ∈ pre, p a = true) (hc : p c = false) :
    (pre ++ c :: rest).takeWhile p = pre := by
  rw [List.takeWhile_append_of_pos hpre, List.takeWhile_cons_of_neg (by simp [hc]),
    List.append_nil]

theorem dropWhile_stop {p : Byte → Bool} (pre : GoString) (c : Byte) (rest : GoString)
    (hpre : ∀ a ∈ pre, p a = true) (hc : p c = false) :
    (pre ++ c :: rest).dropWhile p = c :: rest := by
  rw [List.dropWhile_append_of_pos hpre, List.dropWhile_cons_of_neg (by simp [hc])]

theorem decodeRune_ascii (b : Byte) (rest : GoString) (hb : b.val < 0x80) :
    decodeRune (b :: rest) = (b.val, 1) := by
  simp only [decodeRune, hb, if_true]

theorem TrimLeftSpace_of_not_space (s : GoString) (h : isSpace (decodeRune s).1 = false) :
    TrimLeftSpace s = s := by
  unfold TrimLeftSpace
  cases s.length with
  | zero => rfl
  | succ n => simp only [trimLeftLoop, h, Bool.false_eq_true, if_false]

theorem TrimLeftSpace_nil : TrimLeftSpace [] = [] := rfl

theorem TrimLeftSpace_cons_of_not_space (b : Byte) (rest : GoString) (hb : b.val < 0x80)
    (hs : isSpace b.val = false) : TrimLeftSpace (b :: rest) = b :: rest :=
  TrimLeftSpace_of_not_space _ (by rw [decodeRune_ascii b rest hb]; exact hs)

theorem TrimLeftSpace_cons_of_space (b : Byte) (rest : GoString) (hb : b.val < 0x80)
    (hs : isSpace b.val = true) : TrimLeftSpace (b :: rest) = TrimLeftSpace rest := by
  simp only [TrimLeftSpace, List.length_cons, trimLeftLoop, decodeRune_ascii b rest hb, hs,
    if_true, List.drop_succ_cons, List.drop_zero]

theorem isSpace_of_isTokenChar (c : Byte) (h : isTokenChar c = true) :
    c.val < 0x80 ∧ isSpace c.val = false := by
  simp only [isTokenChar, Bool.decide_and, Bool.and_eq_true, decide_eq_true_eq] at h
  obtain ⟨h1, h2, -⟩ := h
  refine ⟨by omega, ?_⟩
  simp only [isSpace, Bool.decide_or, Bool.decide_and, Bool.or_eq_false_iff,
    Bool.and_eq_false_imp, decide_eq_true_eq, decide_eq_false_iff_not]
  omega

theorem consumeToken_token (T : GoString) (htok : ∀ c ∈ T, isTokenChar c = true) :
    consumeToken T = (T, []) := by
  simp only [consumeToken, List.takeWhile_eq_self_iff.mpr htok,
    List.dropWhile_eq_nil_iff.mpr htok]

theorem consumeValue_token (T : GoString) (htok : ∀ c ∈ T, isTokenChar c = true) :
    consumeValue T = (T, []) := by
  cases T with
  | nil => rfl
  | cons c rest =>
    have hc : c ≠ (ch '"') := by
      intro h
      have := htok c (List.mem_cons_self _ _)
      rw [h] at this
      exact absurd this (by decide)
    simp only [consumeValue, hc, ne_eq, not_false_eq_true, if_true]
    exact consumeToken_token _ htok

theorem TrimLeftSpace_token (T : GoString) (htok : ∀ c ∈ T, isTokenChar c = true) :
    TrimLeftSpace T = T := by
  cases T with
  | nil => rfl
  | cons c rest =>
    have h := isSpace_of_isTokenChar c (htok c (List.mem_cons_self _ _))
    exact TrimLeftSpace_cons_of_not_space c rest h.1 h.2

theorem ToLower_ascii (lower : GoString → GoString) (s : GoString)
    (h : s.all (fun b => b.val < 0x80) = true) : ToLower lower s = s.map asciiLower := by
  simp only [ToLower, h, if_true]

theorem consumeMediaParam_header (lower : GoString → GoString) (T : GoString) (hne : T ≠ [])
    (htok : ∀ c ∈ T, isTokenChar c = true) :
    consumeMediaParam lower ((ch ';') :: (ch ' ') :: ((text "header") ++ (ch '=') :: T))
      = ((text "header"), T, []) := by
  have h1 : TrimLeftSpace ((ch ';') :: (ch ' ') :: ((text "header") ++ (ch '=') :: T))
      = (ch ';') :: (ch ' ') :: ((text "header") ++ (ch '=') :: T) :=
    TrimLeftSpace_cons_of_not_space _ _ (by decide) (by decide)
  have hh : text "header" = (ch 'h') :: text "eader" := by decide
  have h2 : TrimLeftSpace ((ch ' ') :: ((text "header") ++ (ch '=') :: T))
      = (text "header") ++ (ch '=') :: T := by
    rw [TrimLeftSpace_cons_of_space _ _ (by decide) (by decide), hh, List.cons_append]
    exact TrimLeftSpace_cons_of_not_space _ _ (by decide) (by decide)
  have h3 : consumeToken ((text "header") ++ (ch '=') :: T) = ((text "header"), (ch '=') :: T) := by
    simp only [consumeToken]
    rw [takeWhile_stop _ _ _ (by decide) (by decide), dropWhile_stop _ _ _ (by decide) (by decide)]
  have h4 : TrimLeftSpace ((ch '=') :: T) = (ch '=') :: T :=
    TrimLeftSpace_cons_of_not_space _ _ (by decide) (by decide)
  have h5 : ToLower lower (text "header") = (text "header") := by
    rw [ToLower_ascii lower _ (by decide)]
    decide
  have h6 : (text "header") ≠ [] := by decide
  simp only [consumeMediaParam, h1, List.head?_cons, ne_eq, not_true_eq_false, if_false,
    List.drop_succ_cons, List.drop_zero, h2, h3, h4, h5, h6, TrimLeftSpace_token T htok,
    consumeValue_token T htok, hne, false_and]

theorem paramLoop_nil (lower : GoString → GoString) (fuel : Nat) (params : Params)
    (continuation : Continuation) :
    paramLoop lower fuel [] params continuation = .ok (params, continuation) := by
  cases fuel <;> simp [paramLoop, TrimLeftSpace_nil]

theorem paramLoop_single (lower : GoString → GoString) (fuel : Nat) (v key value : GoString)
    (hv : TrimLeftSpace v = v) (hne : v ≠ [])
    (hparam : consumeMediaParam lower v = (key, value, [])) (hkey : key ≠ [])
    (hstar : (ch '*') ∉ key) :
    paramLoop lower (fuel + 1) v [] [] = .ok ([(key, value)], []) := by
  rw [paramLoop]
  simp only [hv, hne, hparam, hkey, hstar, if_false, List.lookup, reduceCtorEq, false_and,
    exists_false, paramLoop_nil, mapSet, List.filter_nil]

/-- The content type `application/vnd.git-media; header=T` parses, for a token
`T`, into the media type and the single parameter `header` with the value `T`. -/
theorem ParseMediaType_header (lower : GoString → GoString) (T : GoString) (hne : T ≠ [])
    (htok : ∀ c ∈ T, isTokenChar c = true) :
    ParseMediaType lower ((text "application/vnd.git-media; header=") ++ T)
      = (gitMediaType, [((text "header"), T)], none) := by
  have hshape : (text "application/vnd.git-media; header=") ++ T
      = gitMediaType ++ (ch ';') :: (ch ' ') :: ((text "header") ++ (ch '=') :: T) := by
    have h0 : (text "application/vnd.git-media; header=")
        = gitMediaType ++ ((ch ';') :: (ch ' ') :: ((text "header") ++ [(ch '=')])) := by decide
    rw [h0]
    simp only [List.append_assoc, List.cons_append, List.nil_append]
  have hbase : (gitMediaType ++ (ch ';') :: (ch ' ') :: ((text "header") ++ (ch '=') :: T)).takeWhile
      (· ≠ (ch ';')) = gitMediaType := takeWhile_stop _ _ _ (by decide) (by decide)
  have hlower : TrimSpace (ToLower lower gitMediaType) = gitMediaType := by
    rw [ToLower_ascii lower _ (by decide)]
    decide
  have hcheck : checkMediaTypeDisposition gitMediaType = none := by decide
  rw [hshape]
  simp only [ParseMediaType, hbase, hlower, hcheck, List.drop_left]
  rw [paramLoop_single lower _ _ _ _
    (TrimLeftSpace_cons_of_not_space _ _ (by decide) (by decide)) (by simp)
    (consumeMediaParam_header lower T hne htok) (by decide) (by decide)]
  rfl

/-- The empty content type does not parse. -/
theorem ParseMediaType_nil (lower : GoString → GoString) :
    (ParseMediaType lower []).2.2 ≠ none := by
  have hlower : TrimSpace (ToLower lower []) = [] := by
    rw [ToLower_ascii lower _ (by decide)]
    decide
  have hcheck : checkMediaTypeDisposition [] = some ⟨"mime: no media type"⟩ := by decide
  simp only [ParseMediaType, List.takeWhile_nil, hlower, hcheck]
  exact fun h => by cases h

end mime

/-- What `Get` returns once it holds a response with a `Content-Type`. -/
theorem Get_of_response (w : World) (filename : GoString) (res : Response)
    (hget : GetReceives w filename res) (hct : res.Header.Get "Content-Type" ≠ []) :
    (Get w filename).1 =
      (match validateMediaHeader w (res.Header.Get "Content-Type") res.Body with
        | ((false, err), _) => (none, err)
        | ((true, _), rest) => (some (.body rest), none)) := by
  obtain ⟨err, req, creds, t, t2, hstat, hreq, hdo⟩ := hget
  simp only [Get, hstat, hreq, hdo, hct, if_false]
  split <;> rfl

/-- C5: when the content type does not parse, or parses to a media type other
than `application/vnd.git-media`, `validateMediaHeader` returns false with the
error `Invalid Media Type`; when it parses to that media type without a
`header` parameter, false with the error `Invalid header`.  In both cases the
reader is left as it was: nothing has been read. -/
theorem validateMediaHeader_rejects_content_type (w : World) (contentType reader : GoString) :
    (((mime.ParseMediaType w.mapToLower contentType).2.2 ≠ none ∨
        (mime.ParseMediaType w.mapToLower contentType).1 ≠ gitMediaType) →
      validateMediaHeader w contentType reader
        = ((false, some (.new "Invalid Media Type")), reader)) ∧
    ((mime.ParseMediaType w.mapToLower contentType).2.2 = none →
      (mime.ParseMediaType w.mapToLower contentType).1 = gitMediaType →
      (mime.ParseMediaType w.mapToLower contentType).2.1.lookup (text "header") = none →
      validateMediaHeader w contentType reader
        = ((false, some (.new "Invalid header")), reader)) := by
  rcases hp : mime.ParseMediaType w.mapToLower contentType with ⟨mediaType, params, err⟩
  refine ⟨?_, ?_⟩
  · intro h
    cases err with
    | some e => simp only [validateMediaHeader, hp]
    | none =>
      have hmt : mediaType ≠ gitMediaType := by simpa using h
      simp only [validateMediaHeader, hp, hmt, ne_eq, not_false_eq_true, if_true]
  · intro herr hmt hparam
    simp only at herr hmt hparam
    subst herr hmt
    simp only [validateMediaHeader, hp, ne_eq, not_true_eq_false, if_false, hparam]

/-- C4: for a content type that parses to `application/vnd.git-media` with the
`header` parameter `T`: on a body of at least `len("--" + T + "\n")` bytes that
does not start with `"--" + T + "\n"`, `validateMediaHeader` fails with the
error `Invalid header`; on a shorter body it fails with the read error (`EOF`
for an empty body, `ErrUnexpectedEOF` otherwise).  In both cases a `Get` that
received this body returns a nil stream and that error.  Lengths are counted
in bytes. -/
theorem validateMediaHeader_rejects_body (w : World) (contentType T body : GoString)
    (params : mime.Params)
    (hparse : mime.ParseMediaType w.mapToLower contentType = (gitMediaType, params, none))
    (hparam : params.lookup (text "header") = some T)
    (hbody : ((text "--") ++ T ++ (text "\n")).length ≤ body.length →
      body.take ((text "--") ++ T ++ (text "\n")).length ≠ (text "--") ++ T ++ (text "\n")) :
    ∃ err,
      (validateMediaHeader w contentType body).1 = (false, some err) ∧
      (((text "--") ++ T ++ (text "\n")).length ≤ body.length → err = .new "Invalid header") ∧
      (body.length < ((text "--") ++ T ++ (text "\n")).length →
        err = (if body = [] then io.EOF else io.ErrUnexpectedEOF)) ∧
      ∀ filename res, GetReceives w filename res →
        res.Header.Get "Content-Type" = contentType → res.Body = body →
        (Get w filename).1 = (none, some err) := by
  have hct : contentType ≠ [] := by
    intro h
    have hnil := mime.ParseMediaType_nil w.mapToLower
    rw [h] at hparse
    rw [hparse] at hnil
    exact hnil rfl
  have hget : ∀ err, (validateMediaHeader w contentType body).1 = (false, some err) →
      ∀ filename res, GetReceives w filename res →
        res.Header.Get "Content-Type" = contentType → res.Body = body →
        (Get w filename).1 = (none, some err) := by
    intro err hv filename res hrecv hhdr hb
    rw [Get_of_response w filename res hrecv (by rw [hhdr]; exact hct), hhdr, hb]
    rcases hvm : validateMediaHeader w contentType body with ⟨⟨ok, e⟩, r⟩
    rw [hvm] at hv
    simp only [Prod.mk.injEq] at hv
    obtain ⟨rfl, rfl⟩ := hv
    rfl
  by_cases hlen : ((text "--") ++ T ++ (text "\n")).length ≤ body.length
  · have hv : (validateMediaHeader w contentType body).1
        = (false, some (.new "Invalid header")) := by
      simp only [validateMediaHeader, hparse, hparam, ne_eq, not_true_eq_false, if_false,
        io.ReadAtLeast, hlen, if_true, hbody hlen, not_false_eq_true]
    exact ⟨_, hv, fun _ => rfl, fun h => absurd hlen (Nat.not_le.mpr h), hget _ hv⟩
  · have hv : (validateMediaHeader w contentType body).1
        = (false, some (if body = [] then io.EOF else io.ErrUnexpectedEOF)) := by
      simp only [validateMediaHeader, hparse, hparam, ne_eq, not_true_eq_false, if_false,
        io.ReadAtLeast, hlen]
      by_cases hnil : body = [] <;> simp only [hnil, if_true, if_false]
    exact ⟨_, hv, fun h => absurd h hlen, fun _ => rfl, hget _ hv⟩

/-- C3: for a boundary token `T` (a non-empty run of MIME token characters)
and a body `"--" + T + "\n" + rest`, `validateMediaHeader` on the content type
`application/vnd.git-media; header=T` returns true and a nil error and leaves
the reader at `rest`: it has read the `len("--" + T + "\n")` bytes of the
boundary line and no more.  A `Get` that received this body returns the stream
`rest` with a nil error. -/
theorem validateMediaHeader_accepts (w : World) (T rest : GoString) (hne : T ≠ [])
    (htok : ∀ c ∈ T, mime.isTokenChar c = true) :
    validateMediaHeader w ((text "application/vnd.git-media; header=") ++ T)
        ((text "--") ++ T ++ (text "\n") ++ rest) = ((true, none), rest) ∧
    ((text "--") ++ T ++ (text "\n") ++ rest).drop ((text "--") ++ T ++ (text "\n")).length
      = rest ∧
    ∀ filename res, GetReceives w filename res →
      res.Header.Get "Content-Type" = (text "application/vnd.git-media; header=") ++ T →
      res.Body = (text "--") ++ T ++ (text "\n") ++ rest →
      (Get w filename).1 = (some (.body rest), none) := by
  have hv : validateMediaHeader w ((text "application/vnd.git-media; header=") ++ T)
      ((text "--") ++ T ++ (text "\n") ++ rest) = ((true, none), rest) := by
    have hlook : List.lookup (text "header") [((text "header"), T)] = some T := by
      simp [List.lookup]
    simp only [validateMediaHeader, mime.ParseMediaType_header w.mapToLower T hne htok, ne_eq,
      not_true_eq_false, if_false, hlook, io.ReadAtLeast, List.length_append,
      Nat.le_add_right, if_true]
    rw [← List.length_append, ← List.length_append, List.take_left, List.drop_left]
    simp
  have hct : (text "application/vnd.git-media; header=") ++ T ≠ [] := by
    intro h
    exact hne (List.append_eq_nil.mp h).2
  refine ⟨hv, List.drop_left _ _, ?_⟩
  intro filename res hrecv hhdr hb
  rw [Get_of_response w filename res hrecv (by rw [hhdr]; exact hct), hhdr, hb, hv]

/-- C5, instances: the content type `text/plain; header=x`, one that does
not parse, and `application/vnd.git-media` without parameters. -/
theorem validateMediaHeader_rejects_content_type_witness :
    validateMediaHeader (exampleWorld [] exampleCreds fun _ => .ok notFound)
        (text "text/plain; header=x") (text "--x\nhello")
      = ((false, some (.new "Invalid Media Type")), (text "--x\nhello")) ∧
    validateMediaHeader (exampleWorld [] exampleCreds fun _ => .ok notFound)
        (text "application/vnd.git-media; header=") (text "--\nhello")
      = ((false, some (.new "Invalid Media Type")), (text "--\nhello")) ∧
    validateMediaHeader (exampleWorld [] exampleCreds fun _ => .ok notFound)
        (text "application/vnd.git-media") (text "--x\nhello")
      = ((false, some (.new "Invalid header")), (text "--x\nhello")) :=
  ⟨(validateMediaHeader_rejects_content_type (exampleWorld [] exampleCreds fun _ => .ok notFound)
      (text "text/plain; header=x") (text "--x\nhello")).1 (Or.inr (by decide)),
    (validateMediaHeader_rejects_content_type (exampleWorld [] exampleCreds fun _ => .ok notFound)
      (text "application/vnd.git-media; header=") (text "--\nhello")).1 (Or.inl (by decide)),
    (validateMediaHeader_rejects_content_type (exampleWorld [] exampleCreds fun _ => .ok notFound)
      (text "application/vnd.git-media") (text "--x\nhello")).2
      (by decide) (by decide) (by decide)⟩

/-- C4, instances: the boundary `ABC123` with the body `--WRONG\nhello`, and
the boundary `x` with the four-byte body `éé`. -/
theorem validateMediaHeader_rejects_body_witness :
    mime.ParseMediaType (exampleWorld [] exampleCreds fun _ => .ok notFound).mapToLower
        (text "application/vnd.git-media; header=ABC123")
      = (gitMediaType, [((text "header"), (text "ABC123"))], none) ∧
    (∃ err,
      (validateMediaHeader
        (exampleWorld [] exampleCreds fun _ => .ok (download (text "--WRONG\nhello")))
        (text "application/vnd.git-media; header=ABC123") (text "--WRONG\nhello")).1
        = (false, some err) ∧
      err = .new "Invalid header" ∧
      (Get (exampleWorld [] exampleCreds fun _ => .ok (download (text "--WRONG\nhello")))
        (text "dir/abc")).1 = (none, some err)) ∧
    (∃ err,
      (validateMediaHeader (exampleWorld [] exampleCreds fun _ => .ok notFound)
        (text "application/vnd.git-media; header=x") (text "éé")).1 = (false, some err) ∧
      err = .new "Invalid header") :=
  have h := validateMediaHeader_rejects_body
    (exampleWorld [] exampleCreds fun _ => .ok (download (text "--WRONG\nhello")))
    (text "application/vnd.git-media; header=ABC123")
    (text "ABC123") (text "--WRONG\nhello") [((text "header"), (text "ABC123"))]
    (by decide) (by decide) (fun _ => by decide)
  have h2 := validateMediaHeader_rejects_body (exampleWorld [] exampleCreds fun _ => .ok notFound)
    (text "application/vnd.git-media; header=x")
    (text "x") (text "éé") [((text "header"), (text "x"))]
    (by decide) (by decide) (fun _ => by decide)
  ⟨by decide,
    h.elim fun err he =>
      ⟨err, he.1, he.2.1 (by decide),
        he.2.2.2 (text "dir/abc") (download (text "--WRONG\nhello"))
          ⟨_, _, _, _, _, rfl, rfl, rfl⟩ rfl rfl⟩,
    h2.elim fun err he => ⟨err, he.1, he.2.1 (by decide)⟩⟩

/-- C3, an instance: the boundary `ABC123` and the body `--ABC123\nhello`. -/
theorem validateMediaHeader_accepts_witness :
    (text "ABC123") ≠ [] ∧ (∀ c ∈ (text "ABC123"), mime.isTokenChar c = true) ∧
    validateMediaHeader
      (exampleWorld [] exampleCreds fun _ => .ok (download (text "--ABC123\nhello")))
      ((text "application/vnd.git-media; header=") ++ (text "ABC123"))
      ((text "--") ++ (text "ABC123") ++ (text "\n") ++ (text "hello"))
      = ((true, none), (text "hello")) ∧
    (Get (exampleWorld [] exampleCreds fun _ => .ok (download (text "--ABC123\nhello")))
      (text "dir/abc")).1 = (some (.body (text "hello")), none) :=
  have h := validateMediaHeader_accepts
    (exampleWorld [] exampleCreds fun _ => .ok (download (text "--ABC123\nhello")))
    (text "ABC123") (text "hello") (by decide) (by decide)
  ⟨by decide, by decide, h.1,
    h.2.2 (text "dir/abc") (download (text "--ABC123\nhello"))
      ⟨_, _, _, _, _, rfl, rfl, rfl⟩ (by decide) (by decide)⟩

/-! ## Basic authentication in `clientRequest` -/

namespace base64

theorem std_value_char : ∀ i, i < 64 → StdEncoding.value (StdEncoding.char i) = some i := by
  decide

theorem std_char_ne_pad : ∀ i, i < 64 → StdEncoding.char i ≠ padChar := by
  decide

/-- Standard decoding undoes standard encoding. -/
theorem decode_encode (bs : GoString) :
    DecodeString StdEncoding (EncodeToString StdEncoding bs) = some bs := by
  induction bs using EncodeToString.induct StdEncoding with
  | case1 => rfl
  | case2 a =>
    have ha := a.isLt
    simp only [EncodeToString, DecodeString, true_and, if_true,
      std_value_char _ (Nat.mod_lt _ (by decide : 0 < 64))]
    simp only [byteOf, Option.some.injEq, List.cons.injEq, and_true]
    apply Fin.ext
    simp only
    omega
  | case3 a b =>
    have ha := a.isLt
    have hb := b.isLt
    simp only [EncodeToString, DecodeString, true_and, if_true, if_false,
      std_char_ne_pad _ (Nat.mod_lt _ (by decide : 0 < 64)),
      std_value_char _ (Nat.mod_lt _ (by decide : 0 < 64))]
    simp only [byteOf, Option.some.injEq, List.cons.injEq, and_true]
    refine ⟨Fin.ext ?_, Fin.ext ?_⟩ <;> simp only <;> omega
  | case4 a b c rest ih =>
    have ha := a.isLt
    have hb := b.isLt
    have hc := c.isLt
    simp only [EncodeToString, DecodeString, and_false, false_and, if_false,
      std_char_ne_pad _ (Nat.mod_lt _ (by decide : 0 < 64)),
      std_value_char _ (Nat.mod_lt _ (by decide : 0 < 64)), ih]
    simp only [byteOf, Option.some.injEq, List.cons.injEq, and_true]
    refine ⟨Fin.ext ?_, Fin.ext ?_, Fin.ext ?_⟩ <;> simp only <;> omega

end base64

theorem Header_Get_Set (h : Header) (key : String) (value : GoString) :
    Header.Get (Header.Set h key value) key = value := by
  simp [Header.Get, Header.Set, List.lookup]

/-- A server that decodes standard base64 and splits at the first colon
recovers `user` and `password` from `Basic ` followed by the standard encoding
of `user:password`, when `user` holds no colon. -/
theorem parseBasicAuth_std (user password : GoString) (hcolon : colon ∉ user) :
    parseBasicAuth ((text "Basic ") ++
        base64.EncodeToString base64.StdEncoding (user ++ [colon] ++ password))
      = some (user, password) := by
  have htake : ∀ x : GoString, ((text "Basic ") ++ x).take 6 = (text "Basic ") :=
    fun x => List.take_left (text "Basic ") x
  have hdrop : ∀ x : GoString, ((text "Basic ") ++ x).drop 6 = x :=
    fun x => List.drop_left (text "Basic ") x
  have hlow : ((text "Basic ")).map asciiLower = (text "basic ") := by decide
  have hmem : colon ∈ user ++ [colon] ++ password := by simp
  have huser : ∀ b ∈ user, decide (b ≠ colon) = true := by
    intro b hb
    simp only [ne_eq, decide_not, Bool.not_eq_true', decide_eq_false_iff_not]
    rintro rfl
    exact hcolon hb
  have hsplit1 : (user ++ [colon] ++ password).takeWhile (· ≠ colon) = user := by
    rw [List.append_assoc, List.takeWhile_append_of_pos huser]
    simp
  have hsplit2 : (user ++ [colon] ++ password).dropWhile (· ≠ colon) = colon :: password := by
    rw [List.append_assoc, List.dropWhile_append_of_pos huser]
    simp
  simp only [parseBasicAuth, htake, hdrop, hlow, if_true, base64.decode_encode, hmem,
    hsplit1, hsplit2, List.drop_succ_cons, List.drop_zero]

/-- C6, evaluated on the code: with the credentials `a` / `?` the header that
`clientRequest` sets is `Basic YTo_`.  The standard base64 encoding of `a:?`
is `YTo/`; a server that decodes standard base64 and splits at the first colon
rejects `Basic YTo_`, and reads `Basic YTo/` as `a` / `?`. -/
theorem clientRequest_basic_auth_url_alphabet :
    ((clientRequest
        (exampleWorld [] [("username", text "a"), ("password", text "?")] fun _ => .ok notFound)
        "GET" (text "abc")).1.1.map fun req => req.Header.Get "Authorization")
      = some (text "Basic YTo_") ∧
    base64.EncodeToString base64.StdEncoding (text "a:?") = (text "YTo/") ∧
    parseBasicAuth (text "Basic YTo_") = none ∧
    parseBasicAuth (text "Basic YTo/") = some (text "a", text "?") := by
  refine ⟨?_, ?_, ?_, ?_⟩ <;> decide

/-! ## The object identifier, `filepath.Base` -/

namespace filepath

theorem stripTrailing_eq_nil (path : GoString) (h : ∀ c ∈ path, c = Separator) :
    stripTrailing path = [] := by
  induction path with
  | nil => rfl
  | cons c rest ih =>
    have hc : c = Separator := h c (List.mem_cons_self _ _)
    simp only [stripTrailing, ih (fun x hx => h x (List.mem_cons_of_mem _ hx)), hc, if_true]

theorem stripTrailing_getLast (path : GoString) (h : ∃ c ∈ path, c ≠ Separator) :
    ∃ init last, stripTrailing path = init ++ [last] ∧ last ≠ Separator := by
  induction path with
  | nil => simp at h
  | cons c rest ih =>
    by_cases hrest : ∃ x ∈ rest, x ≠ Separator
    · obtain ⟨init, last, hs, hl⟩ := ih hrest
      refine ⟨c :: init, last, ?_, hl⟩
      simp only [stripTrailing, hs]
      cases init <;> rfl
    · have hall : ∀ x ∈ rest, x = Separator := by
        intro x hx
        by_contra hne
        exact hrest ⟨x, hx, hne⟩
      have hc : c ≠ Separator := by
        obtain ⟨x, hx, hne⟩ := h
        rcases List.mem_cons.mp hx with rfl | hx
        · exact hne
        · exact absurd (hall x hx) hne
      refine ⟨[], c, ?_, hc⟩
      simp only [stripTrailing, stripTrailing_eq_nil rest hall, hc, if_false, List.nil_append]

theorem lastElement_no_separator (path : GoString) : Separator ∉ lastElement path := by
  induction path with
  | nil => simp [lastElement]
  | cons c rest ih =>
    by_cases hmem : Separator ∈ rest
    · rw [lastElement, if_pos hmem]
      exact ih
    · by_cases hc : c = Separator
      · rw [lastElement, if_neg hmem, if_pos hc]
        exact hmem
      · rw [lastElement, if_neg hmem, if_neg hc]
        intro h
        rcases List.mem_cons.mp h with h | h
        · exact hc h.symm
        · exact hmem h

theorem lastElement_ne_nil (init : GoString) (last : Byte) (hlast : last ≠ Separator) :
    lastElement (init ++ [last]) ≠ [] := by
  induction init with
  | nil => simp [lastElement, hlast]
  | cons c rest ih =>
    show lastElement (c :: (rest ++ [last])) ≠ []
    by_cases hmem : Separator ∈ rest ++ [last]
    · rw [lastElement, if_pos hmem]
      exact ih
    · by_cases hc : c = Separator
      · rw [lastElement, if_neg hmem, if_pos hc]
        simp
      · rw [lastElement, if_neg hmem, if_neg hc]
        simp

end filepath

/-- C8, counterexample: the argument `/` gives the object identifier `/`, which
contains a path separator; and `Options("/")`, the root directory being there,
goes on to ask for credentials for the URL built from that identifier. -/
theorem Base_root_is_separator :
    filepath.Base (text "/") = (text "/") ∧ (ch '/') ∈ filepath.Base (text "/") ∧
    ¬ (filepath.Base (text "/") ≠ [] ∧ (ch '/') ∉ filepath.Base (text "/")) ∧
    Event.credentials (ObjectUrl (exampleWorld [] exampleCreds fun _ => .ok notFound) (text "/")) ∈
      (Options (exampleWorld [((text "/"), 4096)] exampleCreds fun _ => .ok ⟨200, [], []⟩)
        (text "/")).2 := by
  decide

/-- C8, amended: the object identifier `filepath.Base(argument)` that
`Options`, `Put` and `Get` derive is never empty; it contains no path
separator when the argument has a byte other than the separator (or is empty);
and for an argument made of separators only it is the separator itself. -/
theorem Base_oid (argument : GoString) :
    filepath.Base argument ≠ [] ∧
    ((argument = [] ∨ ∃ c ∈ argument, c ≠ (ch '/')) → (ch '/') ∉ filepath.Base argument) ∧
    (argument ≠ [] → (∀ c ∈ argument, c = (ch '/')) → filepath.Base argument = [(ch '/')]) := by
  refine ⟨?_, ?_, ?_⟩
  · simp only [filepath.Base]
    split
    · simp
    · split <;> simp_all
  · rintro (rfl | hex)
    · decide
    · obtain ⟨init, last, hs, hl⟩ := filepath.stripTrailing_getLast argument hex
      have hne : argument ≠ [] := by
        rintro rfl
        simp at hex
      have hle := filepath.lastElement_ne_nil init last hl
      simp only [filepath.Base, hne, if_false, hs, hle]
      rw [← hs]
      exact filepath.lastElement_no_separator _
  · intro hne hall
    simp only [filepath.Base, hne, if_false, filepath.stripTrailing_eq_nil argument hall,
      filepath.lastElement, if_true]
    rfl

/-- C8, instances: the arguments `dir/abc` and `//`. -/
theorem Base_oid_witness :
    filepath.Base (text "dir/abc") = (text "abc") ∧
    (ch '/') ∉ filepath.Base (text "dir/abc") ∧
    filepath.Base (text "//") = [(ch '/')] :=
  ⟨by decide,
    (Base_oid (text "dir/abc")).2.1 (Or.inr ⟨(ch 'd'), by decide, by decide⟩),
    (Base_oid (text "//")).2.2 (by decide) (by decide)⟩

/-! ## The URL builder, `ObjectUrl` -/

namespace filepath

theorem cleanLoop_nil (rooted : Bool) (fuel : Nat) (out : GoString) (dotdot : Nat) :
    cleanLoop rooted fuel [] out dotdot = out := by
  cases fuel <;> rfl

theorem cleanLoop_separators (rooted : Bool) (k : Nat) :
    ∀ (fuel : Nat) (path out : GoString) (dotdot : Nat), k + path.length ≤ fuel →
      cleanLoop rooted fuel (List.replicate k Separator ++ path) out dotdot
        = cleanLoop rooted (fuel - k) path out dotdot := by
  induction k with
  | zero => intro fuel path out dotdot _; rfl
  | succ k ih =>
    intro fuel path out dotdot hfuel
    obtain ⟨f, rfl⟩ : ∃ f, fuel = f + 1 := ⟨fuel - 1, by omega⟩
    rw [List.replicate_succ, List.cons_append, cleanLoop, if_pos rfl, ih f path out dotdot (by omega)]
    congr 1
    omega

theorem cleanLoop_element (seg rest out : GoString) (fuel : Nat) (hseg : IsElement seg)
    (hrest : ∀ c, rest.head? = some c → c = Separator) :
    cleanLoop true (fuel + 1) (seg ++ rest) out 1
      = cleanLoop true fuel rest (appendElement out seg) 1 := by
  obtain ⟨hne, hsep, hdot, hdotdot⟩ := hseg
  have hall : ∀ a ∈ seg, decide (a ≠ Separator) = true := by
    intro a ha
    simp only [ne_eq, decide_not, Bool.not_eq_true', decide_eq_false_iff_not]
    rintro rfl
    exact hsep ha
  have htake : (seg ++ rest).takeWhile (· ≠ Separator) = seg := by
    rw [List.takeWhile_append_of_pos hall]
    cases rest with
    | nil => simp
    | cons r rest =>
      rw [hrest r rfl, List.takeWhile_cons_of_neg (by simp), List.append_nil]
  have hdrop : (seg ++ rest).dropWhile (· ≠ Separator) = rest := by
    rw [List.dropWhile_append_of_pos hall]
    cases rest with
    | nil => rfl
    | cons r rest => rw [hrest r rfl, List.dropWhile_cons_of_neg (by simp)]
  cases seg with
  | nil => exact absurd rfl hne
  | cons c s =>
    have h1 : c ≠ Separator := fun h => hsep (h ▸ List.mem_cons_self _ _)
    have h2 : ¬ (c = (ch '.') ∧ (s ++ rest = [] ∨ (s ++ rest).head? = some Separator)) := by
      rintro ⟨rfl, h⟩
      cases s with
      | nil => exact hdot rfl
      | cons d s =>
        rcases h with h | h
        · simp at h
        · simp only [List.cons_append, List.head?_cons, Option.some.injEq] at h
          exact hsep (h ▸ List.mem_cons_of_mem _ (List.mem_cons_self _ _))
    have h3 : ¬ (c = (ch '.') ∧ (s ++ rest).head? = some (ch '.') ∧
        ((s ++ rest).tail = [] ∨ (s ++ rest).tail.head? = some Separator)) := by
      rintro ⟨rfl, hd, h⟩
      cases s with
      | nil => exact hdot rfl
      | cons d s =>
        simp only [List.cons_append, List.head?_cons, Option.some.injEq] at hd
        subst hd
        cases s with
        | nil => exact hdotdot rfl
        | cons e s =>
          rcases h with h | h
          · simp at h
          · simp only [List.cons_append, List.tail_cons, List.head?_cons,
              Option.some.injEq] at h
            exact hsep (h ▸ List.mem_cons_of_mem _ (List.mem_cons_of_mem _ (List.mem_cons_self _ _)))
    rw [List.cons_append, cleanLoop, if_neg h1, if_neg h2, if_neg h3, ← List.cons_append,
      htake, hdrop]
    simp [appendElement]

theorem rawPath_head (parts : List (Nat × GoString)) (trailing : Nat) :
    ∀ c, (rawPath parts trailing).head? = some c → c = Separator := by
  intro c h
  cases parts with
  | nil =>
    cases trailing with
    | zero => simp [rawPath] at h
    | succ n => simpa [rawPath, List.replicate_succ, eq_comm] using h
  | cons p rest =>
    obtain ⟨extra, seg⟩ := p
    simpa [rawPath, List.replicate_succ, eq_comm] using h

theorem cleanLoop_rawPath (trailing : Nat) (parts : List (Nat × GoString)) :
    ∀ (fuel : Nat) (out : GoString), (rawPath parts trailing).length ≤ fuel →
      (∀ p ∈ parts, IsElement p.2) →
      cleanLoop true fuel (rawPath parts trailing) out 1
        = (parts.map Prod.snd).foldl appendElement out := by
  induction parts with
  | nil =>
    intro fuel out hfuel _
    have h := cleanLoop_separators true trailing fuel [] out 1 (by simpa [rawPath] using hfuel)
    rw [List.append_nil] at h
    rw [rawPath, h, cleanLoop_nil]
    rfl
  | cons p rest ih =>
    obtain ⟨extra, seg⟩ := p
    intro fuel out hfuel hparts
    have hseg : IsElement seg := hparts (extra, seg) (List.mem_cons_self _ _)
    have hlen : 1 ≤ seg.length := by
      cases seg with
      | nil => exact absurd rfl hseg.1
      | cons c s => simp
    simp only [rawPath, List.length_append, List.length_replicate] at hfuel
    rw [rawPath, cleanLoop_separators true (extra + 1) fuel _ out 1
      (by simp only [List.length_append]; omega)]
    obtain ⟨f, hf⟩ : ∃ f, fuel - (extra + 1) = f + 1 := ⟨fuel - (extra + 1) - 1, by omega⟩
    rw [hf, cleanLoop_element seg _ out f hseg (rawPath_head rest trailing),
      ih f _ (by omega) (fun p hp => hparts p (List.mem_cons_of_mem _ hp))]
    rfl

theorem pathOf_append (a b : List GoString) : pathOf (a ++ b) = pathOf a ++ pathOf b := by
  induction a with
  | nil => rfl
  | cons seg rest ih => simp [pathOf, ih]

theorem foldl_appendElement_pathOf (segs : List GoString) :
    ∀ (done : List GoString), done ≠ [] → (∀ d ∈ done, d ≠ []) → (∀ d ∈ segs, d ≠ []) →
      segs.foldl appendElement (pathOf done) = pathOf (done ++ segs) := by
  induction segs with
  | nil => intro done _ _ _; simp
  | cons seg rest ih =>
    intro done hne hdone hsegs
    have hlen : (pathOf done).length ≠ 1 := by
      cases done with
      | nil => exact absurd rfl hne
      | cons d ds =>
        have hd : d ≠ [] := hdone d (List.mem_cons_self _ _)
        cases d with
        | nil => exact absurd rfl hd
        | cons c s => simp [pathOf]
    have hstep : appendElement (pathOf done) seg = pathOf (done ++ [seg]) := by
      simp only [appendElement, hlen, ne_eq, not_false_eq_true, if_true, pathOf_append, pathOf,
        List.append_nil, List.append_assoc, List.singleton_append]
    rw [List.foldl_cons, hstep, ih (done ++ [seg]) (by simp)
      (by
        intro d hd
        rcases List.mem_append.mp hd with h | h
        · exact hdone d h
        · rw [List.mem_singleton.mp h]
          exact hsegs seg (List.mem_cons_self _ _))
      (fun d hd => hsegs d (List.mem_cons_of_mem _ hd))]
    simp

/-- The function `Clean` on a rooted path of ordinary elements: runs of
separators shrink to one separator and trailing separators go. -/
theorem Clean_rawPath (parts : List (Nat × GoString)) (trailing : Nat) (hne : parts ≠ [])
    (hparts : ∀ p ∈ parts, IsElement p.2) :
    Clean (rawPath parts trailing) = pathOf (parts.map Prod.snd) := by
  cases parts with
  | nil => exact absurd rfl hne
  | cons p rest =>
    obtain ⟨extra, seg⟩ := p
    have hseg : IsElement seg := hparts (extra, seg) (List.mem_cons_self _ _)
    have hrest : ∀ p ∈ rest, IsElement p.2 := fun p hp => hparts p (List.mem_cons_of_mem _ hp)
    have hshape : rawPath ((extra, seg) :: rest) trailing
        = Separator :: (List.replicate extra Separator ++ (seg ++ rawPath rest trailing)) := by
      simp [rawPath, List.replicate_succ]
    have hlen : 1 ≤ seg.length := by
      cases seg with
      | nil => exact absurd rfl hseg.1
      | cons c s => simp
    have hloop : cleanLoop true
          (Separator :: (List.replicate extra Separator ++ (seg ++ rawPath rest trailing))).length
          (List.replicate extra Separator ++ (seg ++ rawPath rest trailing)) [Separator] 1
        = pathOf (seg :: rest.map Prod.snd) := by
      rw [cleanLoop_separators true extra _ _ _ 1 (by simp)]
      obtain ⟨f, hf⟩ : ∃ f,
          (Separator :: (List.replicate extra Separator ++ (seg ++ rawPath rest trailing))).length
            - extra = f + 1 := ⟨seg.length + (rawPath rest trailing).length, by simp; omega⟩
      have hf2 : (rawPath rest trailing).length ≤ f := by
        simp only [List.length_cons, List.length_append, List.length_replicate] at hf
        omega
      rw [hf, cleanLoop_element seg _ _ f hseg (rawPath_head rest trailing),
        cleanLoop_rawPath trailing rest f _ hf2 hrest]
      have hfirst : appendElement [Separator] seg = pathOf [seg] := by
        simp [appendElement, pathOf]
      rw [hfirst, foldl_appendElement_pathOf _ [seg] (by simp)
        (by simpa using hseg.1) (by
          intro d hd
          obtain ⟨p, hp, rfl⟩ := List.mem_map.mp hd
          exact (hrest p hp).1)]
      rfl
    rw [hshape]
    simp only [Clean, reduceCtorEq, if_false, List.head?_cons, decide_True, if_true,
      List.tail_cons, hloop]
    simp [pathOf]

theorem objects_text : (text "/objects/") = Separator :: ((text "objects") ++ [Separator]) := by
  decide

theorem rawPath_append_objects (oid : GoString) (trailing : Nat) (parts : List (Nat × GoString)) :
    rawPath parts trailing ++ (Separator :: ((text "/objects/") ++ oid))
      = rawPath (parts ++ [(trailing + 1, (text "objects")), (0, oid)]) 0 := by
  induction parts with
  | nil =>
    simp only [rawPath, List.nil_append, objects_text, List.replicate_succ', List.replicate_zero,
      List.append_nil, List.append_assoc, List.cons_append, List.singleton_append]
  | cons p rest ih =>
    obtain ⟨extra, seg⟩ := p
    show rawPath ((extra, seg) :: rest) trailing ++ _
      = rawPath ((extra, seg) :: (rest ++ [(trailing + 1, (text "objects")), (0, oid)])) 0
    simp only [rawPath, List.append_assoc, ih]

theorem rawPath_objects (oid : GoString) :
    (text "/objects/") ++ oid = rawPath [(0, (text "objects")), (0, oid)] 0 := by
  simp only [rawPath, objects_text, List.replicate_succ, List.replicate_zero, List.nil_append,
    List.append_nil, List.cons_append, List.append_assoc, List.singleton_append]

theorem pathOf_objects (oid : GoString) :
    pathOf [(text "objects"), oid] = (text "/objects/") ++ oid := by
  simp only [pathOf, objects_text, List.append_nil, List.cons_append, List.append_assoc,
    List.singleton_append, List.nil_append]

theorem isElement_objects : IsElement (text "objects") := by
  refine ⟨?_, ?_, ?_, ?_⟩ <;> decide

/-- The function `Join` on an endpoint path of ordinary elements and
`"/objects/" + oid`. -/
theorem Join_objects (parts : List (Nat × GoString)) (trailing : Nat) (oid : GoString)
    (hparts : ∀ p ∈ parts, IsElement p.2) (hoid : IsElement oid) :
    Join [rawPath parts trailing, (text "/objects/") ++ oid]
      = pathOf (parts.map Prod.snd) ++ ((text "/objects/") ++ oid) := by
  have htwo : ∀ k, ∀ p ∈ [((k : Nat), (text "objects")), (0, oid)], IsElement p.2 := by
    intro k p hp
    simp only [List.mem_cons, List.mem_singleton, List.not_mem_nil, or_false] at hp
    rcases hp with rfl | rfl
    · exact isElement_objects
    · exact hoid
  have hne : (text "/objects/") ++ oid ≠ [] := by
    rw [objects_text]
    simp
  by_cases hnil : rawPath parts trailing = []
  · have hparts_nil : parts = [] := by
      cases parts with
      | nil => rfl
      | cons p rest =>
        obtain ⟨extra, seg⟩ := p
        simp [rawPath, List.replicate_succ] at hnil
    subst hparts_nil
    have hjoin : List.intercalate [Separator] [(text "/objects/") ++ oid]
        = (text "/objects/") ++ oid := by
      simp [List.intercalate, List.intersperse]
    simp only [Join, hnil, ne_eq, not_true_eq_false, if_false, hne, not_false_eq_true, if_true,
      hjoin, List.map_nil, pathOf, List.nil_append]
    have hclean : Clean ((text "/objects/") ++ oid) = pathOf [(text "objects"), oid] := by
      rw [rawPath_objects, Clean_rawPath _ 0 (by simp) (htwo 0)]
      rfl
    rw [hclean]
    exact pathOf_objects oid
  · have hjoin : List.intercalate [Separator] [rawPath parts trailing, (text "/objects/") ++ oid]
        = rawPath parts trailing ++ (Separator :: ((text "/objects/") ++ oid)) := by
      simp [List.intercalate, List.intersperse]
    simp only [Join, hnil, ne_eq, not_false_eq_true, if_true, hjoin]
    rw [rawPath_append_objects, Clean_rawPath _ 0 (by simp)
      (by
        intro p hp
        rcases List.mem_append.mp hp with h | h
        · exact hparts p h
        · exact htwo _ p h)]
    rw [List.map_append, pathOf_append]
    exact congrArg _ (pathOf_objects oid)

end filepath

/-- C7, counterexample: with the endpoint path `/media/` the object identifier
`..` gives the path `/media`, without `/objects/` (and `Get("x/..")` sends its
request there); and with the endpoint path `/a/../b` the object identifier
`abc` gives `/b/objects/abc`, which does not start with the endpoint's path. -/
theorem ObjectUrl_cleans_path :
    filepath.Base (text "x/..") = (text "..") ∧
    (ObjectUrl (exampleWorld [] exampleCreds fun _ => .ok notFound) (text "..")).Path
      = (text "/media") ∧
    (ObjectUrl (exampleWorld [] exampleCreds fun _ => .ok notFound) (text "..")).Path
      ≠ (text "/media/objects/..") ∧
    Event.httpDo ⟨"GET", (text "https://example.com/media"),
        [("Accept", gitMediaType), ("Authorization", (text "Basic YWxpY2U6c2VjcmV0"))],
        .none, 0⟩ ∈
      (Get (exampleWorld [] exampleCreds fun _ => .ok notFound) (text "x/..")).2 ∧
    (ObjectUrl { exampleWorld [] exampleCreds fun _ => .ok notFound with
        endpoint := ⟨(text "https"), (text "example.com"), (text "/a/../b"), []⟩ }
      (text "abc")).Path = (text "/b/objects/abc") := by
  refine ⟨?_, ?_, ?_, ?_, ?_⟩ <;> decide

/-- C7, amended: when the endpoint's path is made of ordinary
elements (not empty, no slash, neither `.` nor `..`), each preceded by one or
more slashes, and ends in any number of trailing slashes, and the object
identifier is an ordinary element too, `ObjectUrl(oid)` is the endpoint with its
path replaced by the endpoint's elements, each preceded by a single slash,
followed by `/objects/` and the object identifier. -/
theorem ObjectUrl_path (w : World) (parts : List (Nat × GoString)) (trailing : Nat)
    (oid : GoString) (hpath : w.endpoint.Path = filepath.rawPath parts trailing)
    (hparts : ∀ p ∈ parts, filepath.IsElement p.2) (hoid : filepath.IsElement oid) :
    ObjectUrl w oid =
      { w.endpoint with
        Path := filepath.pathOf (parts.map Prod.snd) ++ ((text "/objects/") ++ oid) } := by
  simp only [ObjectUrl, hpath, filepath.Join_objects parts trailing oid hparts hoid]

/-- C7, an instance: the endpoint path `/media/` and the object identifier `abc`. -/
theorem ObjectUrl_path_witness :
    (exampleWorld [] exampleCreds fun _ => .ok notFound).endpoint.Path
      = filepath.rawPath [(0, (text "media"))] 1 ∧
    filepath.IsElement (text "media") ∧ filepath.IsElement (text "abc") ∧
    ObjectUrl (exampleWorld [] exampleCreds fun _ => .ok notFound) (text "abc")
      = ⟨(text "https"), (text "example.com"), (text "/media/objects/abc"), []⟩ :=
  have hmedia : filepath.IsElement (text "media") := ⟨by decide, by decide, by decide, by decide⟩
  have habc : filepath.IsElement (text "abc") := ⟨by decide, by decide, by decide, by decide⟩
  ⟨by decide, hmedia, habc,
    ObjectUrl_path (exampleWorld [] exampleCreds fun _ => .ok notFound) [(0, (text "media"))] 1
      (text "abc") (by decide)
      (fun p hp => by
        rw [List.mem_singleton.mp hp]
        exact hmedia)
      habc⟩

/-! ## The fuel of the loops is enough -/

namespace filepath

theorem length_dropWhile_le (p : Byte → Bool) (l : GoString) :
    (l.dropWhile p).length ≤ l.length := by
  induction l with
  | nil => simp
  | cons c rest ih =>
    simp only [List.dropWhile_cons]
    split
    · exact Nat.le_succ_of_le ih
    · exact Nat.le_refl _

/-- The loop of `Clean` does not run out of fuel: with at least `path.length`
rounds the result does not depend on the fuel. -/
theorem cleanLoop_fuel (rooted : Bool) (fuel : Nat) :
    ∀ (more : Nat) (path out : GoString) (dotdot : Nat), path.length ≤ fuel →
      path.length ≤ more →
      cleanLoop rooted fuel path out dotdot = cleanLoop rooted more path out dotdot := by
  induction fuel with
  | zero =>
    intro more path out dotdot h _
    have hnil : path = [] := List.length_eq_zero.mp (Nat.le_zero.mp h)
    subst hnil
    rw [cleanLoop_nil, cleanLoop_nil]
  | succ fuel ih =>
    intro more path out dotdot h hmore
    cases path with
    | nil => rw [cleanLoop_nil, cleanLoop_nil]
    | cons c rest =>
      obtain ⟨m, rfl⟩ : ∃ m, more = m + 1 := ⟨more - 1, by simp at hmore; omega⟩
      simp only [List.length_cons, Nat.add_le_add_iff_right] at h hmore
      have htail : rest.tail.length ≤ rest.length := by simp
      by_cases hc : c = Separator
      · rw [cleanLoop, cleanLoop, if_pos hc, if_pos hc]
        exact ih _ _ _ _ h hmore
      · have hdrop : ((c :: rest).dropWhile (· ≠ Separator)).length ≤ rest.length := by
          rw [List.dropWhile_cons_of_pos (by simpa using hc)]
          exact length_dropWhile_le _ _
        rw [cleanLoop, cleanLoop, if_neg hc, if_neg hc]
        split_ifs
        all_goals first
          | exact ih _ _ _ _ h hmore
          | exact ih _ _ _ _ (Nat.le_trans htail h) (Nat.le_trans htail hmore)
          | exact ih _ _ _ _ (Nat.le_trans hdrop h) (Nat.le_trans hdrop hmore)

end filepath
namespace mime

theorem consumeQuoted_length (n : Nat) :
    ∀ (l buffer : GoString) (r : GoString × GoString), l.length ≤ n →
      consumeQuoted buffer l = some r → r.2.length ≤ l.length := by
  induction n with
  | zero =>
    intro l buffer r hl h
    have hnil : l = [] := List.length_eq_zero.mp (Nat.le_zero.mp hl)
    subst hnil
    simp [consumeQuoted] at h
  | succ n ih =>
    intro l buffer r hl h
    match l, hl, h with
    | [], _, h => simp [consumeQuoted] at h
    | [c], _, h =>
      simp only [consumeQuoted] at h
      split_ifs at h
      simp only [Option.some.injEq] at h
      subst h
      simp
    | c :: next :: rest, hl, h =>
      simp only [consumeQuoted] at h
      simp only [List.length_cons] at hl ⊢
      split_ifs at h
      · simp only [Option.some.injEq] at h
        subst h
        simp
      · have := ih rest _ r (by omega) h
        omega
      · have := ih (next :: rest) _ r (by simp only [List.length_cons]; omega) h
        simp only [List.length_cons] at this
        omega

theorem consumeValue_length (v : GoString) : (consumeValue v).2.length ≤ v.length := by
  cases v with
  | nil => simp [consumeValue]
  | cons c rest =>
    simp only [consumeValue]
    split_ifs
    · exact filepath.length_dropWhile_le _ _
    · cases hq : consumeQuoted [] rest with
      | none => simp
      | some r =>
        have := consumeQuoted_length rest.length rest [] r (Nat.le_refl _) hq
        simp only [List.length_cons]
        omega

theorem length_trimLeftLoop_le (fuel : Nat) :
    ∀ s : GoString, (trimLeftLoop fuel s).length ≤ s.length := by
  induction fuel with
  | zero => intro s; exact Nat.le_refl _
  | succ fuel ih =>
    intro s
    simp only [trimLeftLoop]
    split_ifs
    · exact Nat.le_trans (ih _) (by simp)
    · exact Nat.le_refl _

theorem length_TrimLeftSpace_le (s : GoString) : (TrimLeftSpace s).length ≤ s.length :=
  length_trimLeftLoop_le _ s

theorem consumeMediaParam_length (lower : GoString → GoString) (v : GoString)
    (hkey : (consumeMediaParam lower v).1 ≠ []) :
    (consumeMediaParam lower v).2.2.length < v.length := by
  have hd := length_TrimLeftSpace_le
  simp only [consumeMediaParam] at hkey ⊢
  split_ifs at hkey ⊢ with h1 h2 h3 h4
  all_goals try exact absurd rfl hkey
  have hv := hd v
  have hne : TrimLeftSpace v ≠ [] := by
    intro h
    simp [h] at h1
  have hpos : 0 < (TrimLeftSpace v).length := List.length_pos.mpr hne
  have h5 := consumeValue_length
    (TrimLeftSpace (List.drop 1 (TrimLeftSpace (consumeToken
      (TrimLeftSpace (List.drop 1 (TrimLeftSpace v)))).2)))
  have h6 := hd (List.drop 1 (TrimLeftSpace (consumeToken
      (TrimLeftSpace (List.drop 1 (TrimLeftSpace v)))).2))
  have h7 := hd (consumeToken
      (TrimLeftSpace (List.drop 1 (TrimLeftSpace v)))).2
  have h8 : (consumeToken
      (TrimLeftSpace (List.drop 1 (TrimLeftSpace v)))).2.length
        ≤ (TrimLeftSpace (List.drop 1 (TrimLeftSpace v))).length :=
    filepath.length_dropWhile_le _ _
  have h9 := hd (List.drop 1 (TrimLeftSpace v))
  simp only [List.length_drop] at h5 h6 h7 h8 h9 ⊢
  omega

/-- The parameter loop of `ParseMediaType` does not run out of fuel: with more
than `v.length` rounds the result does not depend on the fuel. -/
theorem paramLoop_fuel (lower : GoString → GoString) (fuel : Nat) :
    ∀ (more : Nat) (v : GoString) (params : Params) (continuation : Continuation),
      v.length < fuel → v.length < more →
      paramLoop lower fuel v params continuation
        = paramLoop lower more v params continuation := by
  induction fuel with
  | zero => intro more v params continuation h _; exact absurd h (Nat.not_lt_zero _)
  | succ fuel ih =>
    intro more v params continuation h hmore
    obtain ⟨m, rfl⟩ : ∃ m, more = m + 1 := ⟨more - 1, by omega⟩
    have hv := length_TrimLeftSpace_le v
    rw [paramLoop, paramLoop]
    simp only
    split_ifs with h1 h2 h3 h4 h5 h6
    all_goals try rfl
    all_goals
      have hlt := consumeMediaParam_length lower (TrimLeftSpace v) h2
      exact ih _ _ _ _ (by omega) (by omega)

end mime


namespace mime

theorem decodeRune_width (s : GoString) (h : isSpace (decodeRune s).1 = true) :
    1 ≤ (decodeRune s).2 ∧ 1 ≤ s.length := by
  cases s with
  | nil => exact absurd h (by decide)
  | cons b0 rest =>
    refine ⟨?_, by simp⟩
    simp only [decodeRune]
    repeat' split
    all_goals first
      | exact Nat.le_refl _
      | simp

theorem decodeLastRune_width (s : GoString) (h : isSpace (decodeLastRune s).1 = true) :
    1 ≤ (decodeLastRune s).2 ∧ 1 ≤ s.length := by
  have hlen : 1 ≤ s.length := by
    cases s with
    | nil => exact absurd h (by decide)
    | cons b rest => simp
  refine ⟨?_, hlen⟩
  simp only [decodeLastRune]
  split
  · rename_i hrev
    simp only [List.reverse_eq_nil_iff] at hrev
    subst hrev
    simp at hlen
  · split_ifs
    · exact Nat.le_refl _
    · split
      · split_ifs with hw
        · rw [hw]
          omega
        · exact Nat.le_refl _
      · exact Nat.le_refl _

/-- The loop of `TrimLeftFunc` does not run out of fuel. -/
theorem trimLeftLoop_fuel (fuel : Nat) :
    ∀ (more : Nat) (s : GoString), s.length ≤ fuel → s.length ≤ more →
      trimLeftLoop fuel s = trimLeftLoop more s := by
  induction fuel with
  | zero =>
    intro more s h _
    have hnil : s = [] := List.length_eq_zero.mp (Nat.le_zero.mp h)
    subst hnil
    cases more <;> rfl
  | succ fuel ih =>
    intro more s h hmore
    by_cases hs : isSpace (decodeRune s).1 = true
    · have hw := decodeRune_width s hs
      obtain ⟨m, rfl⟩ : ∃ m, more = m + 1 := ⟨more - 1, by omega⟩
      simp only [trimLeftLoop, hs, if_true]
      exact ih _ _ (by simp only [List.length_drop]; omega)
        (by simp only [List.length_drop]; omega)
    · cases more with
      | zero => simp [trimLeftLoop, hs]
      | succ m => simp [trimLeftLoop, hs]

/-- The loop of `TrimRightFunc` does not run out of fuel. -/
theorem trimRightLoop_fuel (fuel : Nat) :
    ∀ (more : Nat) (s : GoString), s.length ≤ fuel → s.length ≤ more →
      trimRightLoop fuel s = trimRightLoop more s := by
  induction fuel with
  | zero =>
    intro more s h _
    have hnil : s = [] := List.length_eq_zero.mp (Nat.le_zero.mp h)
    subst hnil
    cases more <;> rfl
  | succ fuel ih =>
    intro more s h hmore
    by_cases hs : isSpace (decodeLastRune s).1 = true
    · have hw := decodeLastRune_width s hs
      obtain ⟨m, rfl⟩ : ∃ m, more = m + 1 := ⟨more - 1, by omega⟩
      simp only [trimRightLoop, hs, if_true]
      exact ih _ _ (by simp only [List.length_take]; omega)
        (by simp only [List.length_take]; omega)
    · cases more with
      | zero => simp [trimRightLoop, hs]
      | succ m => simp [trimRightLoop, hs]

end mime

end GitMedia
